import Mathlib

/-!
Verification of the SomeReactAndroidApp repository.

JavaScript strings are modelled as lists of characters (`JSStr`), JavaScript
numbers as rationals (`ℚ`; the code under scrutiny only parses decimal
literals and multiplies by powers of ten, all exact in `ℚ`), and the stateful
React components as explicit state-transition functions returning a new state
together with a list of observable effects.
-/

/-- JavaScript strings, modelled as their sequence of characters. -/
abbrev JSStr := List Char

/-- Shorthand turning a Lean string literal into the `JSStr` model. -/
def lit (s : String) : JSStr := s.toList

/-- Code points that JavaScript `\s` (and `String.prototype.trim`) treats as
whitespace: TAB LF VT FF CR SP NBSP OGHAM-SP LSEP PSEP NNBSP MMSP IDSP BOM. -/
def jsWsCodes : List ℕ := [9, 10, 11, 12, 13, 32, 160, 5760, 8232, 8233, 8239, 8287, 12288, 65279]

/-- JavaScript whitespace test (`\s` of the regexes in `content.ts`, and the
character class removed by `trim()`); 8192-8202 is the U+2000..U+200A range. -/
def jsIsWs (c : Char) : Bool := c.toNat ∈ jsWsCodes || (8192 ≤ c.toNat && c.toNat ≤ 8202)

/-- Character-wise model of JavaScript `toLowerCase` on the alphabets this
application uses: ASCII A-Z, Cyrillic А-Я (U+0410..U+042F) and Ё (U+0401).
All other characters are left unchanged. -/
def jsCharLower (c : Char) : Char :=
  if 65 ≤ c.toNat ∧ c.toNat ≤ 90 then Char.ofNat (c.toNat + 32)
  else if 1040 ≤ c.toNat ∧ c.toNat ≤ 1071 then Char.ofNat (c.toNat + 32)
  else if c.toNat = 1025 then Char.ofNat 1105
  else c

/-- Model of JavaScript `String.prototype.toLowerCase`. -/
def jsToLower (s : JSStr) : JSStr := s.map jsCharLower

/-- Model of JavaScript `String.prototype.trim`: strip leading and trailing
whitespace. -/
def jsTrim (s : JSStr) : JSStr :=
  ((s.dropWhile jsIsWs).reverse.dropWhile jsIsWs).reverse

/-- Model of `.replace(/\s+/g, '')`: delete every whitespace character. -/
def deleteWs (s : JSStr) : JSStr := s.filter (fun c => !jsIsWs c)

/-- Prefix test: `hasPre pat s` holds when `pat` is a prefix of `s`
(JavaScript `String.prototype.startsWith`). -/
def hasPre : JSStr → JSStr → Bool
  | [], _ => true
  | _ :: _, [] => false
  | p :: ps, c :: cs => decide (p = c) && hasPre ps cs

/-- Substring test, JavaScript `String.prototype.includes`:
`containsSub pat s` holds when `pat` occurs contiguously inside `s`. -/
def containsSub (pat : JSStr) : JSStr → Bool
  | [] => hasPre pat []
  | c :: cs => hasPre pat (c :: cs) || containsSub pat cs

/-- Suffix test, JavaScript `String.prototype.endsWith`. -/
def endsWithStr (s pat : JSStr) : Bool := hasPre pat.reverse s.reverse

/-- Model of JavaScript `String.prototype.replace` with a string pattern:
replace the first occurrence of `pat` by `rep`, or return the string
unchanged when `pat` does not occur. -/
def replaceFirst (pat rep : JSStr) : JSStr → JSStr
  | [] => if hasPre pat [] then rep else []
  | c :: cs =>
    if hasPre pat (c :: cs) then rep ++ (c :: cs).drop pat.length
    else c :: replaceFirst pat rep cs

/-- Model of JavaScript `Array.prototype.join(' ')`. -/
def joinSpace (l : List JSStr) : JSStr := (List.intersperse (lit " ") l).flatten

/-- Decimal digit to its character, used to render JavaScript numbers. -/
def digitChar : ℕ → Char
  | 0 => '0' | 1 => '1' | 2 => '2' | 3 => '3' | 4 => '4'
  | 5 => '5' | 6 => '6' | 7 => '7' | 8 => '8' | 9 => '9'
  | _ => '?'

/-- Numeric value of an ASCII digit character. -/
def digitVal (c : Char) : ℕ := c.toNat - 48

/-- ASCII digit test (the digits of the JavaScript decimal number grammar). -/
def isDigitB (c : Char) : Bool := 48 ≤ c.toNat && c.toNat ≤ 57

/-- Decimal digits of `n`, least significant first; the first argument is
structural fuel (`n` itself suffices since `n / 10 < n`). -/
def natDigitsRev : ℕ → ℕ → List ℕ
  | 0, _ => []
  | _ + 1, 0 => []
  | fuel + 1, n + 1 => (n + 1) % 10 :: natDigitsRev fuel ((n + 1) / 10)

/-- Decimal rendering of a natural number, as JavaScript renders integers. -/
def natLit (n : ℕ) : JSStr :=
  if n = 0 then ['0'] else (natDigitsRev n n).reverse.map digitChar

/-- Decimal rendering of an integer, as JavaScript renders integers. -/
def intLit (i : ℤ) : JSStr := (if i < 0 then ['-'] else []) ++ natLit i.natAbs

/-- Value of a most-significant-first digit-character string. -/
def digitsVal (ds : JSStr) : ℕ := ds.foldl (fun a c => 10 * a + digitVal c) 0

/- ## The post model and the search screen filter (src/unnamed/part_000) -/

/-- Review record, from `Review` in src/constants/content.ts. -/
structure ReviewItem where
  id : JSStr
  author : JSStr
  comment : JSStr
  rating : ℚ
  date : JSStr
deriving DecidableEq, Repr

/-- Working-hours record, from `WorkingHours` in src/constants/content.ts. -/
structure WorkingHoursItem where
  label : JSStr
  value : JSStr
deriving DecidableEq, Repr

/-- Contact record, from `ContactInfo` in src/constants/content.ts (the icon
is a glyph name, a string). -/
structure ContactItem where
  label : JSStr
  value : JSStr
  icon : JSStr
deriving DecidableEq, Repr

/-- A `NumericValue` is `number | string` in src/constants/content.ts. -/
inductive NumericValue
  | num (n : ℚ)
  | str (s : JSStr)
deriving DecidableEq, Repr

/-- The `Post` type of src/constants/content.ts. -/
structure Post where
  id : JSStr
  user : JSStr
  userAvatar : JSStr
  userHandle : JSStr
  place : JSStr
  address : JSStr
  image : JSStr
  gallery : List JSStr
  likes : NumericValue
  totalLikes : NumericValue
  followers : NumericValue
  rating : ℚ
  tags : List JSStr
  bio : JSStr
  workingHours : List WorkingHoursItem
  reviews : List ReviewItem
  contact : List ContactItem
deriving DecidableEq, Repr

/-- The `NormalizedPost` type of src/constants/content.ts: a `Post` whose
numeric fields have been parsed, plus a `uid`. -/
structure NormalizedPost where
  id : JSStr
  user : JSStr
  userAvatar : JSStr
  userHandle : JSStr
  place : JSStr
  address : JSStr
  image : JSStr
  gallery : List JSStr
  uid : JSStr
  likes : ℚ
  totalLikes : ℚ
  followers : ℚ
  rating : ℚ
  tags : List JSStr
  bio : JSStr
  workingHours : List WorkingHoursItem
  reviews : List ReviewItem
  contact : List ContactItem
deriving DecidableEq, Repr

/-- The `filterPosts` callback of the search screen (src/unnamed/part_000):
filter by category chip and by free-text query over a joined haystack. -/
def filterPosts (data : List NormalizedPost) (category query : JSStr) : List NormalizedPost :=
  let normalizedQuery := jsToLower (jsTrim query)
  data.filter fun post =>
    let matchesCategory :=
      decide (category = lit "all") || post.tags.any fun tag => decide (jsToLower tag = category)
    if !matchesCategory then false
    else if normalizedQuery.isEmpty then true
    else
      containsSub normalizedQuery
        (jsToLower (joinSpace (post.place :: post.user :: post.address :: post.bio :: post.tags)))

/-- The haystack string `filterPosts` searches: place, user, address, bio and
all tags joined with single spaces, lowercased. -/
def haystackOf (post : NormalizedPost) : JSStr :=
  jsToLower (joinSpace (post.place :: post.user :: post.address :: post.bio :: post.tags))

/-- The filtering predicate exactly as claim C1 words it, as a Boolean. -/
def claimPredBool (category query : JSStr) (post : NormalizedPost) : Bool :=
  (decide (category = lit "all") || post.tags.any fun tag => decide (jsToLower tag = category)) &&
  (decide (jsToLower (jsTrim query) = []) ||
    containsSub (jsToLower (jsTrim query)) (haystackOf post))

/-- The filtering predicate exactly as claim C1 words it, as a proposition:
the category matches, and the normalized query is empty or is a substring of
the haystack. -/
def claimPostMatches (category query : JSStr) (post : NormalizedPost) : Prop :=
  (category = lit "all" ∨ ∃ tag ∈ post.tags, jsToLower tag = category) ∧
  (jsToLower (jsTrim query) = [] ∨
    ∃ pre suf, haystackOf post = pre ++ jsToLower (jsTrim query) ++ suf)

/- ## Numeric parsing and formatting (src/constants/content.ts) -/

/-- Exponent part of the JavaScript `parseFloat` grammar: `e`/`E`, an optional
sign and digits; an exponent without digits contributes nothing (the longest
valid numeric prefix stops before it). -/
def expPart (r : JSStr) : ℤ :=
  if r.head? = some 'e' ∨ r.head? = some 'E' then
    if r.tail.head? = some '-' then
      (if r.tail.tail.takeWhile isDigitB = [] then 0
       else -(digitsVal (r.tail.tail.takeWhile isDigitB) : ℤ))
    else if r.tail.head? = some '+' then
      (if r.tail.tail.takeWhile isDigitB = [] then 0
       else (digitsVal (r.tail.tail.takeWhile isDigitB) : ℤ))
    else
      (if r.tail.takeWhile isDigitB = [] then 0
       else (digitsVal (r.tail.takeWhile isDigitB) : ℤ))
  else 0

/-- Model of JavaScript `Number.parseFloat`: skip leading whitespace, read an
optional sign, then the longest prefix matching `digits [. digits] [exp]` or
`. digits [exp]`; `none` models NaN (no digits at all). The `Infinity`
literal is omitted: the caller in `content.ts` lowercases its input first and
`parseFloat('infinity')` is NaN. Values are exact rationals, so the
float-overflow-to-Infinity corner of huge exponents does not arise. -/
def parseFloat (s : JSStr) : Option ℚ :=
  let s0 := s.dropWhile jsIsWs
  let sign : ℚ := if s0.head? = some '-' then -1 else 1
  let s1 := if s0.head? = some '-' ∨ s0.head? = some '+' then s0.tail else s0
  let ip := s1.takeWhile isDigitB
  let r1 := s1.dropWhile isDigitB
  let fp := if r1.head? = some '.' then r1.tail.takeWhile isDigitB else []
  let r2 := if r1.head? = some '.' then r1.tail.dropWhile isDigitB else r1
  if ip = [] ∧ fp = [] then none
  else
    some (sign * ((digitsVal ip : ℚ) + (digitsVal fp : ℚ) / (10 : ℚ) ^ fp.length)
      * (10 : ℚ) ^ expPart r2)

/-- The `parseNumericValue` function of src/constants/content.ts: numbers
pass through; strings are trimmed, lowercased, stripped of whitespace, the
first comma becomes a dot, a `млн`/`тыс`/trailing-`k` marker selects a
multiplier and is removed, and the remainder is `parseFloat`ed (0 on NaN). -/
def parseNumericValue : NumericValue → ℚ
  | .num n => n
  | .str v =>
    let str1 := jsToLower (jsTrim v)
    let str2 := replaceFirst [','] ['.'] (deleteWs str1)
    let p : ℚ × JSStr :=
      if containsSub (lit "млн") str2 then (1000000, replaceFirst (lit "млн") [] str2)
      else if containsSub (lit "тыс") str2 then (1000, replaceFirst (lit "тыс") [] str2)
      else if endsWithStr str2 (lit "k") then (1000, str2.dropLast)
      else (1, str2)
    match parseFloat p.2 with
    | some parsed => parsed * p.1
    | none => 0

/-- The parsing pipeline exactly as claim C2 words it, with the multiplier
applied branch by branch; compared against `parseNumericValue`. -/
def parseNumericValueClaim : NumericValue → ℚ
  | .num n => n
  | .str v =>
    let s := replaceFirst [','] ['.'] (deleteWs (jsToLower (jsTrim v)))
    if containsSub (lit "млн") s then
      match parseFloat (replaceFirst (lit "млн") [] s) with
      | some q => q * 1000000
      | none => 0
    else if containsSub (lit "тыс") s then
      match parseFloat (replaceFirst (lit "тыс") [] s) with
      | some q => q * 1000
      | none => 0
    else if endsWithStr s (lit "k") then
      match parseFloat s.dropLast with
      | some q => q * 1000
      | none => 0
    else
      match parseFloat s with
      | some q => q
      | none => 0

/-- The `normalizePost` function of src/constants/content.ts: copy the post,
add `uid = id + '-' + index` and parse the three numeric fields. -/
def normalizePost (post : Post) (index : ℕ) : NormalizedPost :=
  { id := post.id, user := post.user, userAvatar := post.userAvatar,
    userHandle := post.userHandle, place := post.place, address := post.address,
    image := post.image, gallery := post.gallery,
    uid := post.id ++ lit "-" ++ natLit index,
    likes := parseNumericValue post.likes,
    totalLikes := parseNumericValue post.totalLikes,
    followers := parseNumericValue post.followers,
    rating := post.rating, tags := post.tags, bio := post.bio,
    workingHours := post.workingHours, reviews := post.reviews,
    contact := post.contact }

/-- Helper for `normalizePosts`: `list.map((post, index) => ...)` threading
the running index. -/
def normalizePostsAux : ℕ → List Post → List NormalizedPost
  | _, [] => []
  | i, p :: ps => normalizePost p i :: normalizePostsAux (i + 1) ps

/-- The `normalizePosts` function of src/constants/content.ts. -/
def normalizePosts (l : List Post) : List NormalizedPost := normalizePostsAux 0 l

/-- The i-th normalized post exactly as claim C2 words it: every field of the
input post kept, `uid` is the id, a dash and the index, and the three numeric
fields go through the claim's parsing pipeline. -/
def claimNormalizedAt (p : Post) (i : ℕ) : NormalizedPost :=
  { id := p.id, user := p.user, userAvatar := p.userAvatar,
    userHandle := p.userHandle, place := p.place, address := p.address,
    image := p.image, gallery := p.gallery,
    uid := p.id ++ '-' :: natLit i,
    likes := parseNumericValueClaim p.likes,
    totalLikes := parseNumericValueClaim p.totalLikes,
    followers := parseNumericValueClaim p.followers,
    rating := p.rating, tags := p.tags, bio := p.bio,
    workingHours := p.workingHours, reviews := p.reviews, contact := p.contact }

/-- Model of JavaScript `Number.prototype.toFixed(1)`: round to the nearest
tenth, ties toward positive infinity (ECMA-262 picks the larger candidate),
rendered with exactly one fractional digit. -/
def toFixed1 (x : ℚ) : JSStr :=
  let r : ℤ := ⌊x * 10 + 1 / 2⌋
  let a : ℕ := r.natAbs
  (if r < 0 then ['-'] else []) ++ natLit (a / 10) ++ '.' :: [digitChar (a % 10)]

/-- Model of `.replace(/\.0$/, '')`: drop a trailing `.0`. -/
def dropDotZero (s : JSStr) : JSStr :=
  if endsWithStr s (lit ".0") then s.dropLast.dropLast else s

/-- The inner `formatWithSuffix` helper of `formatCompactNumber`
(src/constants/content.ts): one-decimal rendering, `.0` dropped, decimal
comma, sign prefix and a space-separated suffix. -/
def formatWithSuffix (sign : JSStr) (num : ℚ) (suffix : JSStr) : JSStr :=
  let fixed := toFixed1 num
  let normalized := replaceFirst ['.'] [','] (dropDotZero fixed)
  sign ++ normalized ++ ' ' :: suffix

/-- No-break space, the ru-RU group separator of `Intl.NumberFormat`. -/
def nbspChar : Char := Char.ofNat 160

/-- Group a reversed digit string in threes with no-break spaces. -/
def groupRev : JSStr → JSStr
  | [] => []
  | [a] => [a]
  | [a, b] => [a, b]
  | [a, b, c] => [a, b, c]
  | a :: b :: c :: d :: rest => a :: b :: c :: nbspChar :: groupRev (d :: rest)

/-- Thousands grouping of an integer digit string, ru-RU style. -/
def groupThousands (s : JSStr) : JSStr := (groupRev s.reverse).reverse

/-- Fractional part renderer for the ru-RU formatter: `f < 1000` is the
three rounded decimal digits; trailing zeros are stripped and a decimal
comma is prepended when digits remain. -/
def fracRender (f : ℕ) : JSStr :=
  let ds := [f / 100, f / 10 % 10, f % 10]
  let stripped := (ds.reverse.dropWhile (fun d => d = 0)).reverse
  if stripped = [] then [] else ',' :: stripped.map digitChar

/-- Model of `new Intl.NumberFormat('ru-RU').format` with default options:
round half away from zero to at most three fractional digits, group the
integer digits in threes with no-break spaces, use a decimal comma. -/
def intlRuFormat (v : ℚ) : JSStr :=
  let sign := if v < 0 then ['-'] else []
  let n : ℕ := (⌊|v| * 1000 + 1 / 2⌋).toNat
  sign ++ groupThousands (natLit (n / 1000)) ++ fracRender (n % 1000)

/-- The `formatCompactNumber` function of src/constants/content.ts. -/
def formatCompactNumber (value : ℚ) : JSStr :=
  let abs := |value|
  let sign := if value < 0 then lit "-" else []
  if abs ≥ 1000000 then formatWithSuffix sign (abs / 1000000) (lit "млн")
  else if abs ≥ 1000 then formatWithSuffix sign (abs / 1000) (lit "тыс")
  else intlRuFormat value

/-- One-decimal compact rendering exactly as claim C7 words it: round to one
decimal place, drop a trailing zero decimal, write the decimal point as a
comma (for the nonnegative arguments the code supplies). -/
def claimCompact1dp (x : ℚ) : JSStr :=
  let n : ℕ := (⌊x * 10 + 1 / 2⌋).toNat
  if n % 10 = 0 then natLit (n / 10)
  else natLit (n / 10) ++ ',' :: [digitChar (n % 10)]

/-- The compact formatter exactly as claim C7 words it, compared against
`formatCompactNumber`. -/
def formatCompactClaim (v : ℚ) : JSStr :=
  if |v| ≥ 1000000 then
    (if v < 0 then ['-'] else []) ++ claimCompact1dp (|v| / 1000000) ++ lit " млн"
  else if 1000 ≤ |v| ∧ |v| < 1000000 then
    (if v < 0 then ['-'] else []) ++ claimCompact1dp (|v| / 1000) ++ lit " тыс"
  else intlRuFormat v

/- ## The WebView map bridge (src/unnamed/part_001) -/

/-- Coordinates exchanged with the map widget (`MapCoordinates`). -/
structure MapCoordinates where
  latitude : ℚ
  longitude : ℚ
deriving DecidableEq, Repr

/-- A parsed bridge message (`MapMessage`). The `type` field is an arbitrary
string: at runtime the WebView can post any JSON, so the TypeScript union is
not enforced. Optional fields model the optional properties. -/
structure MapMsg where
  type : JSStr
  latitude : Option ℚ := none
  longitude : Option ℚ := none
  address : Option JSStr := none
  error : Option JSStr := none
deriving DecidableEq, Repr

/-- The component state of `YandexMap` that `handleWebViewMessage` can touch,
plus the `userRole` and `token` values it reads. -/
structure MapState where
  selectedLocation : MapCoordinates
  address : JSStr
  isLoading : Bool
  isMapLoaded : Bool
  showAddModal : Bool
  newPlaceCoords : Option MapCoordinates
  newPlaceName : JSStr
  newPlaceDesc : JSStr
  userRole : JSStr
  token : Option JSStr
deriving DecidableEq, Repr

/-- Observable effects of the bridge handler: alerts and the
`onLocationSelect` callback (which receives the raw, possibly absent,
address of the message). -/
inductive MapEffect
  | alert (title message : JSStr)
  | locationSelect (coords : MapCoordinates) (address : Option JSStr)
deriving DecidableEq, Repr

/-- JavaScript `x || d` on an optional string: the default replaces both an
absent and an empty string. -/
def jsOr (o : Option JSStr) (d : JSStr) : JSStr :=
  match o with
  | some s => if s = [] then d else s
  | none => d

/-- Body shared verbatim by the `MAP_CLICK`, `SEARCH_RESULT` and
`ROUTE_BUILT` cases of `handleWebViewMessage`: when both coordinates are
present and nonzero (JavaScript truthiness), store them, store
`data.address || ''`, and invoke `onLocationSelect` with the coordinates and
the raw `data.address`. -/
def coordUpdate (st : MapState) (data : MapMsg) : MapState × List MapEffect :=
  match data.latitude, data.longitude with
  | some la, some lo =>
    if la ≠ 0 ∧ lo ≠ 0 then
      ({ st with selectedLocation := ⟨la, lo⟩, address := (data.address).getD [] },
       [MapEffect.locationSelect ⟨la, lo⟩ data.address])
    else (st, [])
  | _, _ => (st, [])

/-- The `handleWebViewMessage` handler of src/unnamed/part_001. `none` models
an `event.nativeEvent.data` that is not valid JSON: `JSON.parse` throws, the
catch block only logs, and nothing changes. An unknown `type` falls through
the switch. -/
def handleWebViewMessage (st : MapState) (input : Option MapMsg) : MapState × List MapEffect :=
  match input with
  | none => (st, [])
  | some data =>
    if data.type = lit "MAP_LOADED" then
      ({ st with isLoading := false, isMapLoaded := true }, [])
    else if data.type = lit "MAP_CLICK" then coordUpdate st data
    else if data.type = lit "SEARCH_RESULT" then coordUpdate st data
    else if data.type = lit "ROUTE_BUILT" then coordUpdate st data
    else if data.type = lit "MAP_LONG_PRESS" then
      match data.latitude, data.longitude with
      | some la, some lo =>
        if la ≠ 0 ∧ lo ≠ 0 then
          if st.userRole = lit "businessOwner" then
            ({ st with showAddModal := true, newPlaceCoords := some ⟨la, lo⟩ }, [])
          else
            (st, [MapEffect.alert (lit "Ошибка")
              (lit "Только бизнес-пользователь может добавлять маркеры")])
        else (st, [])
      | _, _ => (st, [])
    else if data.type = lit "ERROR" then
      (st, [MapEffect.alert (lit "Ошибка") (jsOr data.error (lit "Произошла ошибка"))])
    else (st, [])

/-- The six message types the bridge handler switches on. -/
def knownTypes : List JSStr :=
  [lit "MAP_LOADED", lit "MAP_CLICK", lit "SEARCH_RESULT", lit "ROUTE_BUILT",
   lit "MAP_LONG_PRESS", lit "ERROR"]

/-- The three message types that update the selected location. -/
def coordTypes : List JSStr := [lit "MAP_CLICK", lit "SEARCH_RESULT", lit "ROUTE_BUILT"]

/-- A bridge input that hits one of the location-updating cases with both
coordinates present and nonzero. -/
def coordHit : Option MapMsg → Prop
  | none => False
  | some m =>
    m.type ∈ coordTypes ∧
      ∃ la lo, m.latitude = some la ∧ m.longitude = some lo ∧ la ≠ 0 ∧ lo ≠ 0

/- ## Authentication screen and token storage
(src/frontend/app/login.tsx and src/unnamed/part_001) -/

/-- The two modes of the auth screen. -/
inductive AuthMode
  | login
  | register
deriving DecidableEq, Repr

/-- The two account types of the auth screen. -/
inductive AccountType
  | user
  | company
deriving DecidableEq, Repr

/-- The form state `handleSubmit` reads. -/
structure AuthInputs where
  mode : AuthMode
  email : JSStr
  password : JSStr
  name : JSStr
  companyName : JSStr
  companyINN : JSStr
  accountType : AccountType
deriving DecidableEq, Repr

/-- The `data.user` object of a backend auth response. -/
structure SessionUser where
  id : ℤ
  username : JSStr
  email : JSStr
  role : JSStr
deriving DecidableEq, Repr

/-- The parsed body and status of a backend auth response: `ok` is `res.ok`,
the other fields are what the handler reads from `await res.json()`. -/
structure AuthResponseData where
  ok : Bool
  error : Option JSStr
  token : JSStr
  user : SessionUser
deriving DecidableEq, Repr

/-- Outcome of the `fetch` call: the request threw (network error) or a
response arrived and its body was parsed. -/
inductive FetchOutcome
  | netError
  | response (data : AuthResponseData)
deriving DecidableEq, Repr

/-- An entry of `UserSession.following`. -/
structure FollowEntry where
  id : JSStr
  name : JSStr
  handle : JSStr
  avatar : JSStr
  description : JSStr
deriving DecidableEq, Repr

/-- Modelled from the spec: the `UserSession` shape of `@/lib/user-session`
(the module itself is not under src/; its type is reconstructed from the
object literals `handleSubmit` builds and the spec's "ad-hoc session state
held in memory/local storage"). -/
structure UserSession where
  id : JSStr
  name : JSStr
  email : JSStr
  handle : JSStr
  avatar : JSStr
  accountType : AccountType
  favorites : List JSStr
  liked : List JSStr
  following : List FollowEntry
deriving DecidableEq, Repr

/-- Client-side storage state: the web `localStorage` the login screen
writes, the React Native `AsyncStorage` the map component reads, and the
in-memory session of `@/lib/user-session`. The two key-value stores are
distinct storage backends. -/
structure ClientState where
  localStorage : List (JSStr × JSStr)
  asyncStorage : List (JSStr × JSStr)
  session : Option UserSession
deriving DecidableEq, Repr

/-- Key-value store update (`setItem`). -/
def setItem (store : List (JSStr × JSStr)) (k v : JSStr) : List (JSStr × JSStr) :=
  (k, v) :: store.filter (fun kv => decide (kv.1 ≠ k))

/-- Key-value store lookup (`getItem`; `none` models `null`). -/
def getItem (store : List (JSStr × JSStr)) (k : JSStr) : Option JSStr :=
  (store.find? (fun kv => decide (kv.1 = k))).map (fun kv => kv.2)

/-- Observable effects of the auth submit handler. -/
inductive AuthEffect
  | alert (title message : JSStr)
  | navigate (path : JSStr)
deriving DecidableEq, Repr

/-- UTF-8 bytes of a character (scalar value), for `encodeURIComponent`. -/
def utf8Bytes (c : Char) : List ℕ :=
  let n := c.toNat
  if n < 128 then [n]
  else if n < 2048 then [192 + n / 64, 128 + n % 64]
  else if n < 65536 then [224 + n / 4096, 128 + n / 64 % 64, 128 + n % 64]
  else [240 + n / 262144, 128 + n / 4096 % 64, 128 + n / 64 % 64, 128 + n % 64]

/-- Uppercase hexadecimal digit. -/
def hexChar (n : ℕ) : Char := if n < 10 then digitChar n else Char.ofNat (55 + n)

/-- Characters `encodeURIComponent` leaves unescaped. -/
def uriUnreserved (c : Char) : Bool :=
  (48 ≤ c.toNat && c.toNat ≤ 57) || (65 ≤ c.toNat && c.toNat ≤ 90) ||
  (97 ≤ c.toNat && c.toNat ≤ 122) ||
  c ∈ ['-', '_', '.', '!', '~', '*', '\'', '(', ')']

/-- Model of JavaScript `encodeURIComponent`: percent-encode the UTF-8 bytes
of every character outside the unreserved set. -/
def encodeURIComponent (s : JSStr) : JSStr :=
  (s.map fun c =>
    if uriUnreserved c then [c]
    else ((utf8Bytes c).map fun b => ['%', hexChar (b / 16), hexChar (b % 16)]).flatten).flatten

/-- The handle derivation `username.includes('@') ? username.split('@')[0] :
username` of src/frontend/app/login.tsx. -/
def handleOf (username : JSStr) : JSStr :=
  if containsSub (lit "@") username then username.takeWhile (fun c => decide (c ≠ '@'))
  else username

/-- The avatar URL both branches of `handleSubmit` build. -/
def avatarOf (email : JSStr) : JSStr :=
  lit "https://i.pravatar.cc/200?u=" ++ encodeURIComponent email

/-- The session object the register branch of `handleSubmit` constructs. -/
def registerSession (inp : AuthInputs) (u : SessionUser) : UserSession :=
  { id := intLit u.id, name := u.username, email := u.email,
    handle := handleOf u.username, avatar := avatarOf u.email,
    accountType := if inp.accountType = AccountType.company then AccountType.company
      else AccountType.user,
    favorites := [], liked := [], following := [] }

/-- The session object the login branch of `handleSubmit` constructs: the
account type comes from the server-reported role. -/
def loginSession (u : SessionUser) : UserSession :=
  { id := intLit u.id, name := u.username, email := u.email,
    handle := handleOf u.username, avatar := avatarOf u.email,
    accountType := if u.role = lit "businessOwner" then AccountType.company
      else AccountType.user,
    favorites := [], liked := [], following := [] }

/-- The `canSubmit` guard of src/frontend/app/login.tsx. -/
def canSubmit (inp : AuthInputs) : Bool :=
  !(jsTrim inp.email).isEmpty && !(jsTrim inp.password).isEmpty &&
  (!(decide (inp.mode = AuthMode.register)) ||
    (if inp.accountType = AccountType.company then !(jsTrim inp.companyName).isEmpty
     else !(jsTrim inp.name).isEmpty))

/-- The `handleSubmit` handler of src/frontend/app/login.tsx, over a given
fetch outcome. On success it writes the token to `localStorage` under
`'token'`, stores the session (`setUserSession`, modelled from the spec as
setting the in-memory session field) and navigates to the profile screen; on
a non-ok response or a thrown request it only alerts. -/
def handleSubmit (inp : AuthInputs) (outcome : FetchOutcome) (st : ClientState) :
    ClientState × List AuthEffect :=
  if !canSubmit inp then
    (st, [AuthEffect.alert (lit "Ошибка") (lit "Пожалуйста, заполните все поля.")])
  else
    match outcome with
    | FetchOutcome.netError =>
      (st, [AuthEffect.alert (lit "Ошибка сети") (lit "Не удалось подключиться к серверу.")])
    | FetchOutcome.response data =>
      if inp.mode = AuthMode.register then
        if !data.ok then
          (st, [AuthEffect.alert (lit "Ошибка регистрации")
            (jsOr data.error (lit "Регистрация не удалась"))])
        else
          ({ st with localStorage := setItem st.localStorage (lit "token") data.token,
                     session := some (registerSession inp data.user) },
           [AuthEffect.navigate (lit "/profile")])
      else
        if !data.ok then
          (st, [AuthEffect.alert (lit "Ошибка входа") (jsOr data.error (lit "Вход не удался"))])
        else
          ({ st with localStorage := setItem st.localStorage (lit "token") data.token,
                     session := some (loginSession data.user) },
           [AuthEffect.navigate (lit "/profile")])

/-- The token the `YandexMap` mount effect reads:
`await AsyncStorage.getItem('token')` (src/unnamed/part_001). -/
def mapLoadToken (st : ClientState) : Option JSStr := getItem st.asyncStorage (lit "token")

/-- The Authorization header of the map component's `GET /me` request, which
is only sent when the token read from `AsyncStorage` is truthy; `none` means
no request (hence no header) is made. -/
def meRequestAuthHeader (st : ClientState) : Option JSStr :=
  match mapLoadToken st with
  | some t => if t = [] then none else some (lit "Bearer " ++ t)
  | none => none

/- ## The backend database schema (src/unnamed/part_002) -/

/-- Referential action of a foreign key's `ON DELETE` clause. -/
inductive FkAction
  | cascade
  | setNull
  | restrict
deriving DecidableEq, Repr

/-- A column of a `CREATE TABLE` statement. -/
structure SqlColumn where
  name : String
  sqlType : String
  nullable : Bool
deriving DecidableEq, Repr

/-- A foreign-key constraint of a `CREATE TABLE` statement. -/
structure SqlForeignKey where
  column : String
  refTable : String
  refColumn : String
  onDelete : FkAction
deriving DecidableEq, Repr

/-- A table of the initialization script. -/
structure SqlTable where
  name : String
  columns : List SqlColumn
  foreignKeys : List SqlForeignKey
deriving DecidableEq, Repr

/-- The `users` table of the backend initialization script
(src/unnamed/part_002, the full schema; the script at
src/backend/app/init.sql is an older two-table variant of the same file). -/
def usersTable : SqlTable :=
  { name := "users",
    columns :=
      [⟨"id", "INT AUTO_INCREMENT PRIMARY KEY", false⟩,
       ⟨"username", "VARCHAR(50) UNIQUE", false⟩,
       ⟨"email", "VARCHAR(100) UNIQUE", true⟩,
       ⟨"password", "VARCHAR(64)", false⟩,
       ⟨"role", "ENUM('user','businessOwner','moderator','admin') DEFAULT 'user'", true⟩,
       ⟨"token", "VARCHAR(64)", true⟩],
    foreignKeys := [] }

/-- The `places` table of the initialization script: geolocation columns
`lat` and `lon` are declared `NULL`, and `owner_id` references `users(id)`
with `ON DELETE SET NULL`. -/
def placesTable : SqlTable :=
  { name := "places",
    columns :=
      [⟨"id", "INT AUTO_INCREMENT PRIMARY KEY", false⟩,
       ⟨"name", "VARCHAR(100)", false⟩,
       ⟨"description", "TEXT", true⟩,
       ⟨"lat", "DECIMAL(9,6)", true⟩,
       ⟨"lon", "DECIMAL(9,6)", true⟩,
       ⟨"owner_id", "INT", true⟩],
    foreignKeys := [⟨"owner_id", "users", "id", FkAction.setNull⟩] }

/-- The `reviews` table of the initialization script: `place_id` and
`user_id` are `NOT NULL` and both foreign keys cascade on delete. -/
def reviewsTable : SqlTable :=
  { name := "reviews",
    columns :=
      [⟨"id", "INT AUTO_INCREMENT PRIMARY KEY", false⟩,
       ⟨"place_id", "INT", false⟩,
       ⟨"user_id", "INT", false⟩,
       ⟨"text", "TEXT", false⟩,
       ⟨"created_at", "DATE DEFAULT (CURRENT_DATE)", false⟩],
    foreignKeys :=
      [⟨"place_id", "places", "id", FkAction.cascade⟩,
       ⟨"user_id", "users", "id", FkAction.cascade⟩] }

/-- The tables the initialization script creates, in order. -/
def initSqlTables : List SqlTable := [usersTable, placesTable, reviewsTable]

/-- A row of `users` (the key fields the constraints mention). -/
structure UserRow where
  id : ℕ
deriving DecidableEq, Repr

/-- A row of `places`: `owner_id` is nullable. -/
structure PlaceRow where
  id : ℕ
  ownerId : Option ℕ
deriving DecidableEq, Repr

/-- A row of `reviews`: `place_id` and `user_id` are `NOT NULL`. -/
structure ReviewRow where
  id : ℕ
  placeId : ℕ
  userId : ℕ
deriving DecidableEq, Repr

/-- A database state over the three tables. -/
structure Db where
  users : List UserRow
  places : List PlaceRow
  reviews : List ReviewRow
deriving DecidableEq, Repr

/-- Referential integrity demanded by the schema's foreign keys: every
review references an existing place and an existing user, and every non-null
place owner references an existing user. -/
def refIntegrity (db : Db) : Prop :=
  (∀ r ∈ db.reviews, (∃ p ∈ db.places, p.id = r.placeId) ∧ ∃ u ∈ db.users, u.id = r.userId) ∧
  (∀ p ∈ db.places, ∀ oid, p.ownerId = some oid → ∃ u ∈ db.users, u.id = oid)

/-- Deleting a user, as the engine executes it under the schema's referential
actions: the user's reviews are cascade-deleted and the places owned by the
user keep existing with `owner_id` set to `NULL`. -/
def deleteUser (db : Db) (uid : ℕ) : Db :=
  { users := db.users.filter (fun u => decide (u.id ≠ uid)),
    places := db.places.map (fun p =>
      if p.ownerId = some uid then { p with ownerId := none } else p),
    reviews := db.reviews.filter (fun r => decide (r.userId ≠ uid)) }

/-- Deleting a place, as the engine executes it under the schema's
referential actions: the place's reviews are cascade-deleted. -/
def deletePlace (db : Db) (pid : ℕ) : Db :=
  { db with
    places := db.places.filter (fun p => decide (p.id ≠ pid)),
    reviews := db.reviews.filter (fun r => decide (r.placeId ≠ pid)) }

/- ## Helper lemmas: the string model -/

/-- The test `hasPre` is the prefix relation. -/
theorem hasPre_iff (pat s : JSStr) : hasPre pat s = true ↔ ∃ t, s = pat ++ t := by
  induction pat generalizing s with
  | nil => simp [hasPre]
  | cons p ps ih =>
    cases s with
    | nil => simp [hasPre]
    | cons c cs =>
      simp only [hasPre, Bool.and_eq_true, decide_eq_true_eq, ih, List.cons_append,
        List.cons.injEq]
      constructor
      · rintro ⟨rfl, t, rfl⟩
        exact ⟨t, rfl, rfl⟩
      · rintro ⟨t, rfl, rfl⟩
        exact ⟨rfl, t, rfl⟩

/-- The test `containsSub` is the substring relation. -/
theorem containsSub_iff (pat s : JSStr) :
    containsSub pat s = true ↔ ∃ pre suf, s = pre ++ pat ++ suf := by
  induction s with
  | nil =>
    simp only [containsSub, hasPre_iff]
    constructor
    · rintro ⟨t, ht⟩
      exact ⟨[], t, ht⟩
    · rintro ⟨pre, suf, h⟩
      rw [List.append_assoc] at h
      rcases List.append_eq_nil.mp h.symm with ⟨rfl, h2⟩
      exact ⟨suf, by simpa using h⟩
  | cons c cs ih =>
    simp only [containsSub, Bool.or_eq_true, hasPre_iff, ih]
    constructor
    · rintro (⟨t, ht⟩ | ⟨pre, suf, rfl⟩)
      · exact ⟨[], t, by simpa using ht⟩
      · exact ⟨c :: pre, suf, rfl⟩
    · rintro ⟨pre, suf, h⟩
      cases pre with
      | nil => exact Or.inl ⟨suf, by simpa using h⟩
      | cons x xs =>
        rw [List.cons_append, List.cons_append] at h
        injection h with h1 h2
        exact Or.inr ⟨xs, suf, by simpa using h2⟩

/- ## Claim C1 -/

/-- C1. `filterPosts` keeps exactly the posts of the input list, in order,
whose tags match the category (or the category is the literal `all`) and
whose joined, lowercased haystack contains the trimmed, lowercased query
(or that query is empty): the code's filter equals the claim's predicate,
and the claim's Boolean predicate means exactly the stated proposition. -/
theorem c1_filterPosts_characterization (data : List NormalizedPost) (category query : JSStr) :
    filterPosts data category query = data.filter (claimPredBool category query) ∧
    ∀ post, claimPredBool category query post = true ↔ claimPostMatches category query post := by
  constructor
  · unfold filterPosts claimPredBool
    apply List.filter_congr
    intro post _
    rcases hcat : (decide (category = lit "all") ||
        post.tags.any fun tag => decide (jsToLower tag = category)) with _ | _ <;>
      rcases hq : jsToLower (jsTrim query) with _ | ⟨c, cs⟩ <;>
        simp [hcat, hq, haystackOf]
  · intro post
    unfold claimPredBool claimPostMatches
    simp only [Bool.and_eq_true, Bool.or_eq_true, decide_eq_true_eq, List.any_eq_true,
      containsSub_iff]

/- ## Claim C2 -/

/-- The code's `parseNumericValue` computes exactly the claim's pipeline. -/
theorem parseNumericValue_eq_claim (v : NumericValue) :
    parseNumericValue v = parseNumericValueClaim v := by
  cases v with
  | num n => rfl
  | str s =>
    simp only [parseNumericValue, parseNumericValueClaim]
    split_ifs <;>
      (cases hp : parseFloat (replaceFirst (lit "млн") []
          (replaceFirst [','] ['.'] (deleteWs (jsToLower (jsTrim s))))) <;> simp [hp])

/-- Index computation for the indexed map underneath `normalizePosts`. -/
theorem normalizePostsAux_getElem (k : ℕ) (l : List Post) (i : ℕ) :
    (normalizePostsAux k l)[i]? = (l[i]?).map fun p => normalizePost p (k + i) := by
  induction l generalizing k i with
  | nil => simp [normalizePostsAux]
  | cons p ps ih =>
    cases i with
    | zero => simp [normalizePostsAux]
    | succ j =>
      have harith : k + 1 + j = k + (j + 1) := by omega
      simp only [normalizePostsAux, List.getElem?_cons_succ, ih (k + 1) j, harith]

/-- Normalization preserves the list length. -/
theorem normalizePostsAux_length (k : ℕ) (l : List Post) :
    (normalizePostsAux k l).length = l.length := by
  induction l generalizing k with
  | nil => rfl
  | cons p ps ih => simp [normalizePostsAux, ih]

/-- Each normalized post is exactly the record the claim describes. -/
theorem normalizePost_eq_claim (p : Post) (i : ℕ) :
    normalizePost p i = claimNormalizedAt p i := by
  simp [normalizePost, claimNormalizedAt, parseNumericValue_eq_claim, lit]

/-- C2. `parseNumericValue` computes the claim's pipeline (numbers pass
through unchanged; strings are trimmed, lowercased, whitespace-deleted,
first comma dotted, scaled by the `млн`/`тыс`/`k` marker, 0 on parse
failure), and `normalizePosts` keeps the length and maps the i-th post to
the same record with `uid = id-<index>` and parsed numeric fields. -/
theorem c2_normalizePosts_spec (v : NumericValue) (l : List Post) (i : ℕ) (p : Post)
    (hp : l[i]? = some p) :
    parseNumericValue v = parseNumericValueClaim v ∧
    (normalizePosts l).length = l.length ∧
    (normalizePosts l)[i]? = some (claimNormalizedAt p i) := by
  refine ⟨parseNumericValue_eq_claim v, normalizePostsAux_length 0 l, ?_⟩
  rw [normalizePosts, normalizePostsAux_getElem, hp]
  simp [normalizePost_eq_claim]

/-- A concrete post exercising C2's statement. -/
def post0 : Post :=
  { id := lit "p1", user := lit "Иван", userAvatar := [], userHandle := lit "ivan",
    place := lit "Парк", address := lit "ул. Ленина", image := [], gallery := [],
    likes := NumericValue.str (lit "1,5 тыс"), totalLikes := NumericValue.num 7,
    followers := NumericValue.str (lit "2 млн"), rating := 4, tags := [lit "Еда"],
    bio := lit "bio", workingHours := [], reviews := [], contact := [] }

/-- Witness for C2 at a concrete one-element list. -/
theorem c2_normalizePosts_spec_witness :
    parseNumericValue (NumericValue.str (lit "1,5 тыс")) =
      parseNumericValueClaim (NumericValue.str (lit "1,5 тыс")) ∧
    (normalizePosts [post0]).length = [post0].length ∧
    (normalizePosts [post0])[0]? = some (claimNormalizedAt post0 0) :=
  c2_normalizePosts_spec (NumericValue.str (lit "1,5 тыс")) [post0] 0 post0 rfl

/- ## Claim C3 -/

/-- C3. The initialization script creates exactly the tables `users`,
`places`, `reviews`; `places.lat` and `places.lon` are nullable;
`reviews.place_id` and `reviews.user_id` reference `places(id)` and
`users(id)` with `ON DELETE CASCADE`, so deleting a place or a user deletes
its reviews while preserving referential integrity; and `places.owner_id`
references `users(id)` with `ON DELETE SET NULL`, so deleting a user nulls
the owner of the places it owned. -/
theorem c3_schema_and_referential_actions :
    initSqlTables.map SqlTable.name = ["users", "places", "reviews"] ∧
    (∃ c ∈ placesTable.columns, c.name = "lat" ∧ c.nullable = true) ∧
    (∃ c ∈ placesTable.columns, c.name = "lon" ∧ c.nullable = true) ∧
    reviewsTable.foreignKeys = [⟨"place_id", "places", "id", FkAction.cascade⟩,
      ⟨"user_id", "users", "id", FkAction.cascade⟩] ∧
    placesTable.foreignKeys = [⟨"owner_id", "users", "id", FkAction.setNull⟩] ∧
    (∀ (db : Db) (uid : ℕ), refIntegrity db →
      refIntegrity (deleteUser db uid) ∧
      (∀ r ∈ (deleteUser db uid).reviews, r.userId ≠ uid) ∧
      (∀ p ∈ (deleteUser db uid).places, p.ownerId ≠ some uid)) ∧
    (∀ (db : Db) (pid : ℕ), refIntegrity db →
      refIntegrity (deletePlace db pid) ∧
      ∀ r ∈ (deletePlace db pid).reviews, r.placeId ≠ pid) := by
  refine ⟨rfl, ⟨⟨"lat", "DECIMAL(9,6)", true⟩, by simp [placesTable], rfl, rfl⟩,
    ⟨⟨"lon", "DECIMAL(9,6)", true⟩, by simp [placesTable], rfl, rfl⟩, rfl, rfl, ?_, ?_⟩
  · intro db uid hdb
    obtain ⟨hrev, hpl⟩ := hdb
    refine ⟨⟨?_, ?_⟩, ?_, ?_⟩
    · intro r hr
      rw [deleteUser, List.mem_filter] at hr
      obtain ⟨hr0, hru⟩ := hr
      have hrne : r.userId ≠ uid := of_decide_eq_true hru
      obtain ⟨⟨p, hp, hpid⟩, ⟨u, hu, huid⟩⟩ := hrev r hr0
      constructor
      · refine ⟨if p.ownerId = some uid then { p with ownerId := none } else p, ?_, ?_⟩
        · exact List.mem_map_of_mem _ hp
        · split <;> exact hpid
      · refine ⟨u, ?_, huid⟩
        simp only [deleteUser, List.mem_filter]
        exact ⟨hu, decide_eq_true (by rw [huid]; exact hrne)⟩
    · intro p' hp' oid hoid
      rw [deleteUser, List.mem_map] at hp'
      obtain ⟨p, hp, rfl⟩ := hp'
      by_cases hcase : p.ownerId = some uid
      · rw [if_pos hcase] at hoid
        exact absurd hoid (by simp)
      · rw [if_neg hcase] at hoid
        obtain ⟨u, hu, huid⟩ := hpl p hp oid hoid
        refine ⟨u, ?_, huid⟩
        simp only [deleteUser, List.mem_filter]
        refine ⟨hu, decide_eq_true ?_⟩
        intro heq
        exact hcase (by rw [hoid, ← huid, heq])
    · intro r hr
      rw [deleteUser, List.mem_filter] at hr
      exact of_decide_eq_true hr.2
    · intro p' hp'
      rw [deleteUser, List.mem_map] at hp'
      obtain ⟨p, hp, rfl⟩ := hp'
      by_cases hcase : p.ownerId = some uid
      · rw [if_pos hcase]
        simp
      · rw [if_neg hcase]
        exact hcase
  · intro db pid hdb
    obtain ⟨hrev, hpl⟩ := hdb
    refine ⟨⟨?_, ?_⟩, ?_⟩
    · intro r hr
      rw [deletePlace, List.mem_filter] at hr
      obtain ⟨hr0, hrp⟩ := hr
      have hrne : r.placeId ≠ pid := of_decide_eq_true hrp
      obtain ⟨⟨p, hp, hpid⟩, ⟨u, hu, huid⟩⟩ := hrev r hr0
      constructor
      · refine ⟨p, ?_, hpid⟩
        simp only [deletePlace, List.mem_filter]
        exact ⟨hp, decide_eq_true (by rw [hpid]; exact hrne)⟩
      · exact ⟨u, hu, huid⟩
    · intro p hp oid hoid
      rw [deletePlace, List.mem_filter] at hp
      exact hpl p hp.1 oid hoid
    · intro r hr
      rw [deletePlace, List.mem_filter] at hr
      exact of_decide_eq_true hr.2

/-- A concrete database exercising C3's dynamic part. -/
def db0 : Db := ⟨[⟨1⟩, ⟨2⟩], [⟨1, some 1⟩, ⟨2, none⟩], [⟨1, 1, 1⟩, ⟨2, 2, 2⟩]⟩

/-- Witness for C3's referential-action statements at a concrete database. -/
theorem c3_schema_and_referential_actions_witness :
    refIntegrity (deleteUser db0 1) ∧
    (∀ r ∈ (deleteUser db0 1).reviews, r.userId ≠ 1) ∧
    (∀ p ∈ (deleteUser db0 1).places, p.ownerId ≠ some 1) :=
  c3_schema_and_referential_actions.2.2.2.2.2.1 db0 1 ⟨by decide, by decide⟩

/- ## Claim C4 -/

/-- C4. The bridge handler acts only on its six message types: for input
that is not valid JSON (`none`) or whose type is none of the six, the
handler is a no-op: it raises no exception (it is a total function), leaves
the whole component state unchanged, and produces no effect. -/
theorem c4_unknown_messages_are_noops (st : MapState) (input : Option MapMsg)
    (h : input = none ∨ ∃ m, input = some m ∧ m.type ∉ knownTypes) :
    handleWebViewMessage st input = (st, []) := by
  rcases h with rfl | ⟨m, rfl, hm⟩
  · rfl
  · simp only [knownTypes, List.mem_cons, List.not_mem_nil, or_false, not_or] at hm
    obtain ⟨h1, h2, h3, h4, h5, h6⟩ := hm
    simp [handleWebViewMessage, h1, h2, h3, h4, h5, h6]

/-- A concrete initial map state. -/
def mapSt0 : MapState :=
  { selectedLocation := ⟨0, 0⟩, address := [], isLoading := true, isMapLoaded := false,
    showAddModal := false, newPlaceCoords := none, newPlaceName := [], newPlaceDesc := [],
    userRole := lit "user", token := none }

/-- Witness for C4: a syntactically valid message of unknown type. -/
theorem c4_unknown_messages_are_noops_witness :
    handleWebViewMessage mapSt0 (some { type := lit "BOGUS" }) = (mapSt0, []) :=
  c4_unknown_messages_are_noops mapSt0 (some { type := lit "BOGUS" })
    (Or.inr ⟨{ type := lit "BOGUS" }, rfl, by decide⟩)

/- ## Claim C8 -/

/-- C8. A `MAP_LONG_PRESS` with nonzero coordinates opens the add-place
modal and records the coordinates exactly when the loaded role is
`businessOwner`; for any other role the handler only raises the error alert
and every state field is unchanged. -/
theorem c8_long_press_gated_by_role (st : MapState) (la lo : ℚ) (addr err : Option JSStr)
    (hla : la ≠ 0) (hlo : lo ≠ 0) :
    (st.userRole = lit "businessOwner" →
      handleWebViewMessage st (some ⟨lit "MAP_LONG_PRESS", some la, some lo, addr, err⟩) =
        ({ st with showAddModal := true, newPlaceCoords := some ⟨la, lo⟩ }, [])) ∧
    (st.userRole ≠ lit "businessOwner" →
      handleWebViewMessage st (some ⟨lit "MAP_LONG_PRESS", some la, some lo, addr, err⟩) =
        (st, [MapEffect.alert (lit "Ошибка")
          (lit "Только бизнес-пользователь может добавлять маркеры")])) := by
  have e1 : ¬(lit "MAP_LONG_PRESS" = lit "MAP_LOADED") := by decide
  have e2 : ¬(lit "MAP_LONG_PRESS" = lit "MAP_CLICK") := by decide
  have e3 : ¬(lit "MAP_LONG_PRESS" = lit "SEARCH_RESULT") := by decide
  have e4 : ¬(lit "MAP_LONG_PRESS" = lit "ROUTE_BUILT") := by decide
  constructor <;> intro hrole <;>
    simp [handleWebViewMessage, e1, e2, e3, e4, hla, hlo, hrole]

/-- A concrete state whose loaded role is `businessOwner`. -/
def mapStBiz : MapState := { mapSt0 with userRole := lit "businessOwner" }

/-- Witness for C8: both the `businessOwner` and the ordinary-role outcome
at concrete inputs. -/
theorem c8_long_press_gated_by_role_witness :
    handleWebViewMessage mapStBiz (some ⟨lit "MAP_LONG_PRESS", some 1, some 2, none, none⟩) =
      ({ mapStBiz with showAddModal := true, newPlaceCoords := some ⟨1, 2⟩ }, []) ∧
    handleWebViewMessage mapSt0 (some ⟨lit "MAP_LONG_PRESS", some 1, some 2, none, none⟩) =
      (mapSt0, [MapEffect.alert (lit "Ошибка")
        (lit "Только бизнес-пользователь может добавлять маркеры")]) :=
  ⟨(c8_long_press_gated_by_role mapStBiz 1 2 none none (by decide) (by decide)).1 rfl,
   (c8_long_press_gated_by_role mapSt0 1 2 none none (by decide) (by decide)).2 (by decide)⟩

/- ## Claim C9 -/

/-- The shared coordinate-update body is a no-op when a coordinate is
missing or zero. -/
theorem coordUpdate_frame (st : MapState) (m : MapMsg)
    (h : ¬ ∃ la lo, m.latitude = some la ∧ m.longitude = some lo ∧ la ≠ 0 ∧ lo ≠ 0) :
    coordUpdate st m = (st, []) := by
  obtain ⟨ty, mla, mlo, maddr, merr⟩ := m
  rcases mla with _ | la <;> rcases mlo with _ | lo <;> simp only [coordUpdate] <;> try rfl
  have hcond : ¬(la ≠ 0 ∧ lo ≠ 0) := fun hc => h ⟨la, lo, rfl, rfl, hc.1, hc.2⟩
  rw [if_neg hcond]

/-- C9, counterexample to the claim as stated. On a `MAP_CLICK` with nonzero
coordinates and no address, the state's `address` is set to the empty string
(`data.address || ''`), but `onLocationSelect` receives the raw
`data.address`, which is absent - not the empty string the claim asserts it
is called with. -/
theorem c9_callback_address_counterexample :
    (handleWebViewMessage mapSt0 (some ⟨lit "MAP_CLICK", some 1, some 2, none, none⟩)).1.address
      = [] ∧
    (handleWebViewMessage mapSt0 (some ⟨lit "MAP_CLICK", some 1, some 2, none, none⟩)).2
      = [MapEffect.locationSelect ⟨1, 2⟩ none] ∧
    (handleWebViewMessage mapSt0 (some ⟨lit "MAP_CLICK", some 1, some 2, none, none⟩)).2
      ≠ [MapEffect.locationSelect ⟨1, 2⟩ (some [])] := by decide

/-- C9, amended. `selectedLocation` and `address` change only on a
`MAP_CLICK`, `SEARCH_RESULT` or `ROUTE_BUILT` message with both coordinates
present and nonzero; then they become the message's coordinates and its
address defaulted to the empty string, and `onLocationSelect` is called once
with the same coordinates and the message's raw address field (absent when
the message carries none). Any other input - including one of these types
with a zero or missing coordinate - leaves both fields unchanged and never
invokes `onLocationSelect`. -/
theorem c9_location_updates_amended (st : MapState) :
    (∀ (m : MapMsg) (la lo : ℚ), m.type ∈ coordTypes → m.latitude = some la →
      m.longitude = some lo → la ≠ 0 → lo ≠ 0 →
      handleWebViewMessage st (some m) =
        ({ st with selectedLocation := ⟨la, lo⟩, address := (m.address).getD [] },
         [MapEffect.locationSelect ⟨la, lo⟩ m.address])) ∧
    (∀ input : Option MapMsg, ¬ coordHit input →
      (handleWebViewMessage st input).1.selectedLocation = st.selectedLocation ∧
      (handleWebViewMessage st input).1.address = st.address ∧
      ∀ c a, MapEffect.locationSelect c a ∉ (handleWebViewMessage st input).2) := by
  have e1 : ¬(lit "MAP_CLICK" = lit "MAP_LOADED") := by decide
  have e2 : ¬(lit "SEARCH_RESULT" = lit "MAP_LOADED") := by decide
  have e3 : ¬(lit "SEARCH_RESULT" = lit "MAP_CLICK") := by decide
  have e4 : ¬(lit "ROUTE_BUILT" = lit "MAP_LOADED") := by decide
  have e5 : ¬(lit "ROUTE_BUILT" = lit "MAP_CLICK") := by decide
  have e6 : ¬(lit "ROUTE_BUILT" = lit "SEARCH_RESULT") := by decide
  constructor
  · intro m la lo hmem hla hlo hla0 hlo0
    obtain ⟨ty, mla, mlo, maddr, merr⟩ := m
    simp only [MapMsg.latitude] at hla
    simp only [MapMsg.longitude] at hlo
    subst hla hlo
    simp only [coordTypes, List.mem_cons, List.not_mem_nil, or_false] at hmem
    rcases hmem with rfl | rfl | rfl <;>
      simp [handleWebViewMessage, coordUpdate, e1, e2, e3, e4, e5, e6, hla0, hlo0]
  · intro input hinput
    cases input with
    | none => exact ⟨rfl, rfl, fun c a => by simp [handleWebViewMessage]⟩
    | some m =>
      obtain ⟨ty, mla, mlo, maddr, merr⟩ := m
      have hframe : ∀ X : MapState × List MapEffect, X = (st, []) →
          X.1.selectedLocation = st.selectedLocation ∧ X.1.address = st.address ∧
          ∀ c a, MapEffect.locationSelect c a ∉ X.2 := by
        rintro X rfl
        exact ⟨rfl, rfl, fun c a => by simp⟩
      simp only [handleWebViewMessage]
      by_cases h1 : ty = lit "MAP_LOADED"
      · rw [if_pos h1]
        exact ⟨rfl, rfl, fun c a => by simp⟩
      rw [if_neg h1]
      by_cases h2 : ty = lit "MAP_CLICK"
      · rw [if_pos h2]
        refine hframe _ (coordUpdate_frame st _ ?_)
        rintro ⟨la, lo, hla, hlo, ha, hb⟩
        exact hinput ⟨by simp [coordTypes, h2], la, lo, hla, hlo, ha, hb⟩
      rw [if_neg h2]
      by_cases h3 : ty = lit "SEARCH_RESULT"
      · rw [if_pos h3]
        refine hframe _ (coordUpdate_frame st _ ?_)
        rintro ⟨la, lo, hla, hlo, ha, hb⟩
        exact hinput ⟨by simp [coordTypes, h3], la, lo, hla, hlo, ha, hb⟩
      rw [if_neg h3]
      by_cases h4 : ty = lit "ROUTE_BUILT"
      · rw [if_pos h4]
        refine hframe _ (coordUpdate_frame st _ ?_)
        rintro ⟨la, lo, hla, hlo, ha, hb⟩
        exact hinput ⟨by simp [coordTypes, h4], la, lo, hla, hlo, ha, hb⟩
      rw [if_neg h4]
      by_cases h5 : ty = lit "MAP_LONG_PRESS"
      · rw [if_pos h5]
        rcases mla with _ | la <;> rcases mlo with _ | lo <;>
          try exact ⟨rfl, rfl, fun c a => by simp⟩
        by_cases hco : la ≠ 0 ∧ lo ≠ 0 <;>
          by_cases hrole : st.userRole = lit "businessOwner" <;>
            simp [hco, hrole]
      rw [if_neg h5]
      by_cases h6 : ty = lit "ERROR"
      · rw [if_pos h6]
        exact ⟨rfl, rfl, fun c a => by simp⟩
      rw [if_neg h6]
      exact ⟨rfl, rfl, fun c a => by simp⟩

/-- Witness for C9's amended statement: a hit at a concrete `SEARCH_RESULT`
message and a frame case at a zero-latitude `MAP_CLICK`. -/
theorem c9_location_updates_amended_witness :
    handleWebViewMessage mapSt0
        (some ⟨lit "SEARCH_RESULT", some 1, some 2, some (lit "addr"), none⟩) =
      ({ mapSt0 with selectedLocation := ⟨1, 2⟩, address := lit "addr" },
       [MapEffect.locationSelect ⟨1, 2⟩ (some (lit "addr"))]) ∧
    (handleWebViewMessage mapSt0 (some ⟨lit "MAP_CLICK", some 0, some 2, none, none⟩)).1.address
      = mapSt0.address :=
  ⟨(c9_location_updates_amended mapSt0).1 ⟨lit "SEARCH_RESULT", some 1, some 2,
      some (lit "addr"), none⟩ 1 2 (by decide) rfl rfl (by decide) (by decide),
   ((c9_location_updates_amended mapSt0).2
      (some ⟨lit "MAP_CLICK", some 0, some 2, none, none⟩)
      (by simp [coordHit])).2.1⟩

/- ## Claim C5 -/

/-- Storing then reading the same key returns the stored value. -/
theorem getItem_setItem_same (store : List (JSStr × JSStr)) (k v : JSStr) :
    getItem (setItem store k v) k = some v := by
  simp [getItem, setItem, List.find?]

/-- C5. With non-blank required fields: on an ok response the handler stores
the returned token under `'token'` in local storage, stores the constructed
session in memory and navigates to the profile screen; on a non-ok response
or a thrown request it changes nothing and only raises one alert. -/
theorem c5_submit_outcomes (inp : AuthInputs) (outcome : FetchOutcome) (st : ClientState)
    (hc : canSubmit inp = true) :
    (∀ data, outcome = FetchOutcome.response data → data.ok = true →
      getItem (handleSubmit inp outcome st).1.localStorage (lit "token") = some data.token ∧
      (handleSubmit inp outcome st).1.session =
        some (if inp.mode = AuthMode.register then registerSession inp data.user
          else loginSession data.user) ∧
      (handleSubmit inp outcome st).2 = [AuthEffect.navigate (lit "/profile")]) ∧
    ((outcome = FetchOutcome.netError ∨
        ∃ data, outcome = FetchOutcome.response data ∧ data.ok = false) →
      (handleSubmit inp outcome st).1 = st ∧
      ∃ t m, (handleSubmit inp outcome st).2 = [AuthEffect.alert t m]) := by
  constructor
  · rintro data rfl hok
    by_cases hm : inp.mode = AuthMode.register <;>
      simp [handleSubmit, hc, hok, hm, getItem_setItem_same]
  · rintro (rfl | ⟨data, rfl, hok⟩)
    · refine ⟨by simp [handleSubmit, hc], ?_⟩
      exact ⟨lit "Ошибка сети", lit "Не удалось подключиться к серверу.",
        by simp [handleSubmit, hc]⟩
    · by_cases hm : inp.mode = AuthMode.register
      · refine ⟨by simp [handleSubmit, hc, hok, hm], ?_⟩
        exact ⟨lit "Ошибка регистрации", jsOr data.error (lit "Регистрация не удалась"),
          by simp [handleSubmit, hc, hok, hm]⟩
      · refine ⟨by simp [handleSubmit, hc, hok, hm], ?_⟩
        exact ⟨lit "Ошибка входа", jsOr data.error (lit "Вход не удался"),
          by simp [handleSubmit, hc, hok, hm]⟩

/-- A concrete empty client state. -/
def clientSt0 : ClientState := ⟨[], [], none⟩

/-- Concrete login-form inputs with non-blank required fields. -/
def authInp0 : AuthInputs :=
  ⟨AuthMode.login, lit "a@b.ru", lit "pw", lit "ivan", [], [], AccountType.user⟩

/-- A concrete ok response carrying token `t1`. -/
def authResp0 : AuthResponseData :=
  ⟨true, none, lit "t1", ⟨1, lit "ivan", lit "a@b.ru", lit "user"⟩⟩

/-- A concrete failed (non-ok) response. -/
def authRespBad : AuthResponseData :=
  ⟨false, some (lit "bad"), [], ⟨1, lit "ivan", lit "a@b.ru", lit "user"⟩⟩

/-- Witness for C5: the success path stores the token and the failure path
leaves the state untouched, at concrete inputs. -/
theorem c5_submit_outcomes_witness :
    getItem (handleSubmit authInp0 (FetchOutcome.response authResp0) clientSt0).1.localStorage
      (lit "token") = some authResp0.token ∧
    (handleSubmit authInp0 (FetchOutcome.response authRespBad) clientSt0).1 = clientSt0 :=
  ⟨((c5_submit_outcomes authInp0 (FetchOutcome.response authResp0) clientSt0
      (by decide)).1 authResp0 rfl rfl).1,
   ((c5_submit_outcomes authInp0 (FetchOutcome.response authRespBad) clientSt0
      (by decide)).2 (Or.inr ⟨authRespBad, rfl, rfl⟩)).1⟩

/- ## Claim C6 -/

/-- C6 is false of the code: it is a bug. The login screen stores the issued
token in web `localStorage`, but the map component reads `AsyncStorage`, a
different store. Starting from a fresh client, after a successful login that
stores token `t1`, the map's `GET /me` carries no `Authorization: Bearer t1`
header: the token it reads is `none`, not the stored `t1`. -/
theorem c6_token_storage_mismatch :
    getItem (handleSubmit authInp0 (FetchOutcome.response authResp0) clientSt0).1.localStorage
      (lit "token") = some (lit "t1") ∧
    mapLoadToken (handleSubmit authInp0 (FetchOutcome.response authResp0) clientSt0).1 = none ∧
    meRequestAuthHeader (handleSubmit authInp0 (FetchOutcome.response authResp0) clientSt0).1
      ≠ some (lit "Bearer t1") := by decide

/- ## Helper lemmas: digits and rendering -/

/-- Reading `digitChar` back with `digitVal` on real digits. -/
theorem digitVal_digitChar (d : ℕ) (h : d < 10) : digitVal (digitChar d) = d := by
  interval_cases d <;> decide

/-- Rendering a digit yields an ASCII digit character. -/
theorem isDigitB_digitChar (d : ℕ) (h : d < 10) : isDigitB (digitChar d) = true := by
  interval_cases d <;> decide

/-- Every digit produced by `natDigitsRev` is below 10. -/
theorem natDigitsRev_lt (fuel n : ℕ) : ∀ d ∈ natDigitsRev fuel n, d < 10 := by
  induction fuel generalizing n with
  | zero => simp [natDigitsRev]
  | succ f ih =>
    cases n with
    | zero => simp [natDigitsRev]
    | succ m =>
      intro d hd
      simp only [natDigitsRev, List.mem_cons] at hd
      rcases hd with rfl | hd
      · omega
      · exact ih _ d hd

/-- The lists of `natDigitsRev` are the base-10 digits: folding them back
gives the number. -/
theorem natDigitsRev_foldr (fuel n : ℕ) (h : n ≤ fuel) :
    (natDigitsRev fuel n).foldr (fun d a => 10 * a + d) 0 = n := by
  induction fuel generalizing n with
  | zero =>
    interval_cases n
    rfl
  | succ f ih =>
    cases n with
    | zero => rfl
    | succ m =>
      have hdiv : (m + 1) / 10 ≤ f := by omega
      simp only [natDigitsRev, List.foldr_cons, ih _ hdiv]
      omega

/-- Digit-count bound for `natDigitsRev`. -/
theorem natDigitsRev_length (fuel n k : ℕ) (h : n < 10 ^ k) :
    (natDigitsRev fuel n).length ≤ k := by
  induction fuel generalizing n k with
  | zero => simp [natDigitsRev]
  | succ f ih =>
    cases n with
    | zero => simp [natDigitsRev]
    | succ m =>
      cases k with
      | zero => simp at h
      | succ j =>
        have hdiv : (m + 1) / 10 < 10 ^ j := by
          have hpow : 10 ^ (j + 1) = 10 ^ j * 10 := by ring
          rw [hpow] at h
          omega
        simp only [natDigitsRev, List.length_cons]
        have := ih ((m + 1) / 10) j hdiv
        omega

/-- Digit lists of positive numbers are nonempty. -/
theorem natDigitsRev_ne_nil (fuel n : ℕ) (h0 : 0 < n) (h : n ≤ fuel) :
    natDigitsRev fuel n ≠ [] := by
  cases fuel with
  | zero => omega
  | succ f =>
    cases n with
    | zero => omega
    | succ m => simp [natDigitsRev]

/-- Every character of a rendered natural number is an ASCII digit. -/
theorem natLit_all_digits (n : ℕ) : ∀ c ∈ natLit n, isDigitB c = true := by
  intro c hc
  unfold natLit at hc
  split at hc
  · simp at hc
    subst hc
    decide
  · simp only [List.mem_map, List.mem_reverse] at hc
    obtain ⟨d, hd, rfl⟩ := hc
    exact isDigitB_digitChar d (natDigitsRev_lt n n d hd)

/-- A rendered natural number is nonempty. -/
theorem natLit_ne_nil (n : ℕ) : natLit n ≠ [] := by
  unfold natLit
  split
  · simp
  · simp only [ne_eq, List.map_eq_nil_iff, List.reverse_eq_nil_iff]
    exact natDigitsRev_ne_nil n n (by omega) le_rfl

/-- Folding digit characters is folding the digits, when all are real
digits. -/
theorem foldr_digitChar (l : List ℕ) (hl : ∀ d ∈ l, d < 10) :
    l.foldr (fun d a => 10 * a + digitVal (digitChar d)) 0 =
      l.foldr (fun d a => 10 * a + d) 0 := by
  induction l with
  | nil => rfl
  | cons d ds ih =>
    simp only [List.foldr_cons]
    rw [ih (fun x hx => hl x (List.mem_cons_of_mem _ hx)),
      digitVal_digitChar d (hl d (List.mem_cons_self _ _))]

/-- Reading back the rendered digits gives the number. -/
theorem digitsVal_natLit (n : ℕ) : digitsVal (natLit n) = n := by
  unfold natLit digitsVal
  split
  · rename_i hn
    subst hn
    rfl
  · rename_i hn
    rw [List.map_reverse, List.foldl_reverse, List.foldr_map,
      foldr_digitChar _ (natDigitsRev_lt n n), natDigitsRev_foldr n n le_rfl]

/-- Rendered numbers below 1000 have at most three characters. -/
theorem natLit_length_le_three (n : ℕ) (h : n < 1000) : (natLit n).length ≤ 3 := by
  unfold natLit
  split
  · simp
  · simp only [List.length_map, List.length_reverse]
    exact natDigitsRev_length n n 3 (by omega)

/- ## Helper lemmas: character classes -/

/-- ASCII digits are not JavaScript whitespace. -/
theorem isDigitB_not_ws (c : Char) (h : isDigitB c = true) : jsIsWs c = false := by
  simp only [isDigitB, Bool.and_eq_true, decide_eq_true_eq] at h
  simp only [jsIsWs, jsWsCodes, Bool.or_eq_false_iff, decide_eq_false_iff_not,
    List.mem_cons, List.not_mem_nil, or_false, not_or, Bool.and_eq_false_iff,
    decide_eq_false_iff_not, not_le]
  omega

/-- ASCII digits are fixed by lowercasing. -/
theorem isDigitB_lower (c : Char) (h : isDigitB c = true) : jsCharLower c = c := by
  simp only [isDigitB, Bool.and_eq_true, decide_eq_true_eq] at h
  unfold jsCharLower
  rw [if_neg (by omega), if_neg (by omega), if_neg (by omega)]

/-- An ASCII digit never equals a non-digit character. -/
theorem isDigitB_ne (c c' : Char) (h : isDigitB c = true) (h' : isDigitB c' = false) :
    c ≠ c' := by
  intro heq
  rw [heq, h'] at h
  exact Bool.false_ne_true h

/- ## Helper lemmas: takeWhile and dropWhile over satisfied prefixes -/

/-- Taking while a test holds passes over a fully satisfying prefix. -/
theorem takeWhile_append_all (p : Char → Bool) (xs ys : JSStr)
    (h : ∀ c ∈ xs, p c = true) :
    (xs ++ ys).takeWhile p = xs ++ ys.takeWhile p := by
  induction xs with
  | nil => simp
  | cons x xs ih =>
    rw [List.cons_append, List.takeWhile_cons_of_pos (h x (List.mem_cons_self _ _)),
      ih (fun c hc => h c (List.mem_cons_of_mem _ hc)), List.cons_append]

/-- Dropping while a test holds consumes a fully satisfying prefix. -/
theorem dropWhile_append_all (p : Char → Bool) (xs ys : JSStr)
    (h : ∀ c ∈ xs, p c = true) :
    (xs ++ ys).dropWhile p = ys.dropWhile p := by
  induction xs with
  | nil => simp
  | cons x xs ih =>
    rw [List.cons_append, List.dropWhile_cons_of_pos (h x (List.mem_cons_self _ _)),
      ih (fun c hc => h c (List.mem_cons_of_mem _ hc))]

/-- Dropping while a test holds keeps a list whose head fails the test. -/
theorem dropWhile_head_neg (p : Char → Bool) (l : JSStr)
    (h : ∀ c, l.head? = some c → p c = false) : l.dropWhile p = l := by
  cases l with
  | nil => rfl
  | cons x xs =>
    rw [List.dropWhile_cons_of_neg]
    simp [h x rfl]

theorem expPart_nil : expPart [] = 0 := by simp [expPart]

theorem parseFloat_digits (ds : JSStr) (hne : ds ≠ []) (hd : ∀ c ∈ ds, isDigitB c = true) :
    parseFloat ds = some (digitsVal ds : ℚ) := by
  obtain ⟨c, cs, rfl⟩ := List.exists_cons_of_ne_nil hne
  have hc : isDigitB c = true := hd c (List.mem_cons_self _ _)
  have hws : (c :: cs).dropWhile jsIsWs = c :: cs :=
    dropWhile_head_neg _ _ (fun x hx => by
      injection hx with h
      subst h
      exact isDigitB_not_ws c hc)
  have hcm : c ≠ '-' := isDigitB_ne c '-' hc (by decide)
  have hcp : c ≠ '+' := isDigitB_ne c '+' hc (by decide)
  have htake : (c :: cs).takeWhile isDigitB = c :: cs := by
    have h2 := takeWhile_append_all isDigitB (c :: cs) [] hd
    simpa using h2
  have hdrop : (c :: cs).dropWhile isDigitB = [] := by
    have h2 := dropWhile_append_all isDigitB (c :: cs) [] hd
    simpa using h2
  simp [parseFloat, hws, htake, hdrop, hcm, hcp, expPart_nil, digitsVal]

theorem parseFloat_digits_frac (ds fs : JSStr) (hne : ds ≠ [])
    (hd : ∀ c ∈ ds, isDigitB c = true) (hf : ∀ c ∈ fs, isDigitB c = true) :
    parseFloat (ds ++ '.' :: fs) =
      some ((digitsVal ds : ℚ) + (digitsVal fs : ℚ) / 10 ^ fs.length) := by
  obtain ⟨c, cs, rfl⟩ := List.exists_cons_of_ne_nil hne
  have hc : isDigitB c = true := hd c (List.mem_cons_self _ _)
  have hws : ((c :: cs) ++ '.' :: fs).dropWhile jsIsWs = (c :: cs) ++ '.' :: fs :=
    dropWhile_head_neg _ _ (fun x hx => by
      injection hx with h
      subst h
      exact isDigitB_not_ws c hc)
  have hcm : c ≠ '-' := isDigitB_ne c '-' hc (by decide)
  have hcp : c ≠ '+' := isDigitB_ne c '+' hc (by decide)
  have htake : ((c :: cs) ++ '.' :: fs).takeWhile isDigitB = c :: cs := by
    rw [takeWhile_append_all isDigitB (c :: cs) _ hd,
      List.takeWhile_cons_of_neg (by decide)]
    simp
  have hdrop : ((c :: cs) ++ '.' :: fs).dropWhile isDigitB = '.' :: fs := by
    rw [dropWhile_append_all isDigitB (c :: cs) _ hd,
      List.dropWhile_cons_of_neg (by decide)]
  have htakef : fs.takeWhile isDigitB = fs := by
    have h2 := takeWhile_append_all isDigitB fs [] hf
    simpa using h2
  have hdropf : fs.dropWhile isDigitB = [] := by
    have h2 := dropWhile_append_all isDigitB fs [] hf
    simpa using h2
  simp only [List.cons_append] at hws htake hdrop ⊢
  simp [parseFloat, hws, htake, hdrop, htakef, hdropf, hcm, hcp, expPart_nil]

theorem parseFloat_digits_neg (ds : JSStr) (hne : ds ≠ [])
    (hd : ∀ c ∈ ds, isDigitB c = true) :
    parseFloat ('-' :: ds) = some (-(digitsVal ds : ℚ)) := by
  obtain ⟨c, cs, rfl⟩ := List.exists_cons_of_ne_nil hne
  have hc : isDigitB c = true := hd c (List.mem_cons_self _ _)
  have hws : ('-' :: c :: cs).dropWhile jsIsWs = '-' :: c :: cs :=
    dropWhile_head_neg _ _ (fun x hx => by
      injection hx with h
      subst h
      decide)
  have htake : (c :: cs).takeWhile isDigitB = c :: cs := by
    have h2 := takeWhile_append_all isDigitB (c :: cs) [] hd
    simpa using h2
  have hdrop : (c :: cs).dropWhile isDigitB = [] := by
    have h2 := dropWhile_append_all isDigitB (c :: cs) [] hd
    simpa using h2
  simp [parseFloat, hws, htake, hdrop, expPart_nil, digitsVal]

theorem parseFloat_digits_frac_neg (ds fs : JSStr) (hne : ds ≠ [])
    (hd : ∀ c ∈ ds, isDigitB c = true) (hf : ∀ c ∈ fs, isDigitB c = true) :
    parseFloat ('-' :: (ds ++ '.' :: fs)) =
      some (-((digitsVal ds : ℚ) + (digitsVal fs : ℚ) / 10 ^ fs.length)) := by
  obtain ⟨c, cs, rfl⟩ := List.exists_cons_of_ne_nil hne
  have hc : isDigitB c = true := hd c (List.mem_cons_self _ _)
  have hws : ('-' :: ((c :: cs) ++ '.' :: fs)).dropWhile jsIsWs
      = '-' :: ((c :: cs) ++ '.' :: fs) :=
    dropWhile_head_neg _ _ (fun x hx => by
      injection hx with h
      subst h
      decide)
  have htake : ((c :: cs) ++ '.' :: fs).takeWhile isDigitB = c :: cs := by
    rw [takeWhile_append_all isDigitB (c :: cs) _ hd,
      List.takeWhile_cons_of_neg (by decide)]
    simp
  have hdrop : ((c :: cs) ++ '.' :: fs).dropWhile isDigitB = '.' :: fs := by
    rw [dropWhile_append_all isDigitB (c :: cs) _ hd,
      List.dropWhile_cons_of_neg (by decide)]
  have htakef : fs.takeWhile isDigitB = fs := by
    have h2 := takeWhile_append_all isDigitB fs [] hf
    simpa using h2
  have hdropf : fs.dropWhile isDigitB = [] := by
    have h2 := dropWhile_append_all isDigitB fs [] hf
    simpa using h2
  simp only [List.cons_append] at hws htake hdrop ⊢
  simp [parseFloat, hws, htake, hdrop, htakef, hdropf, expPart_nil]

/- ## Helper lemmas: replace, includes, endsWith -/

/-- A pattern whose head occurs nowhere is never replaced. -/
theorem replaceFirst_not_mem (p : Char) (ps rep s : JSStr) (h : p ∉ s) :
    replaceFirst (p :: ps) rep s = s := by
  induction s with
  | nil => rfl
  | cons c cs ih =>
    have hpc : ¬(p = c) := fun heq => h (heq ▸ List.mem_cons_self _ _)
    rw [replaceFirst, if_neg (by simp [hasPre, hpc]),
      ih (fun hmem => h (List.mem_cons_of_mem _ hmem))]

/-- Replacing a pattern whose head does not occur earlier rewrites exactly
its first occurrence. -/
theorem replaceFirst_split (p : Char) (ps rep xs ys : JSStr) (h : p ∉ xs) :
    replaceFirst (p :: ps) rep (xs ++ (p :: ps) ++ ys) = xs ++ rep ++ ys := by
  induction xs with
  | nil =>
    have hpre : hasPre (p :: ps) ((p :: ps) ++ ys) = true :=
      (hasPre_iff _ _).mpr ⟨ys, rfl⟩
    cases hcons : (p :: ps) ++ ys with
    | nil => simp at hcons
    | cons c cs =>
      rw [List.nil_append, List.nil_append, hcons, replaceFirst, ← hcons, if_pos hpre]
      have hlen : (p :: ps).length ≤ (p :: ps).length := le_rfl
      rw [List.drop_left]
  | cons x xs ih =>
    have hpx : ¬(p = x) := fun heq => h (heq ▸ List.mem_cons_self _ _)
    rw [List.cons_append, List.cons_append, replaceFirst,
      if_neg (by simp [hasPre, hpx]), ih (fun hmem => h (List.mem_cons_of_mem _ hmem)),
      List.cons_append, List.cons_append]

/-- A pattern whose head occurs nowhere in the string is not a substring. -/
theorem containsSub_false_of_not_mem (p : Char) (ps s : JSStr) (h : p ∉ s) :
    containsSub (p :: ps) s = false := by
  induction s with
  | nil => rfl
  | cons c cs ih =>
    have hpc : ¬(p = c) := fun heq => h (heq ▸ List.mem_cons_self _ _)
    rw [containsSub, ih (fun hmem => h (List.mem_cons_of_mem _ hmem))]
    simp [hasPre, hpc]

/-- A literal occurrence makes `containsSub` true. -/
theorem containsSub_parts (pat xs ys : JSStr) :
    containsSub pat (xs ++ pat ++ ys) = true :=
  (containsSub_iff _ _).mpr ⟨xs, ys, rfl⟩

/-- A one-character suffix test fails when the character occurs nowhere. -/
theorem endsWithStr_single_false (c : Char) (s : JSStr) (h : c ∉ s) :
    endsWithStr s [c] = false := by
  rw [endsWithStr]
  cases hrev : s.reverse with
  | nil => rfl
  | cons x xs =>
    have hx : x ∈ s := by
      rw [← List.mem_reverse, hrev]
      exact List.mem_cons_self _ _
    have hcx : ¬(c = x) := fun heq => h (heq ▸ hx)
    simp [hasPre, hcx]

/-- The `.0`-suffix test on a two-character decimal tail. -/
theorem endsWithStr_dot_digit (xs : JSStr) (c : Char) :
    endsWithStr (xs ++ ['.', c]) (lit ".0") = decide (c = '0') := by
  rw [endsWithStr]
  have hrev : (xs ++ ['.', c]).reverse = c :: '.' :: xs.reverse := by
    simp
  rw [hrev]
  show (decide ('0' = c) && (decide ('.' = '.') && true)) = decide (c = '0')
  simp [eq_comm]

/- ## Helper lemmas: lowercasing, trimming, whitespace removal -/

/-- Lowercasing fixes a string of fixed characters. -/
theorem jsToLower_eq_self (s : JSStr) (h : ∀ c ∈ s, jsCharLower c = c) :
    jsToLower s = s := by
  unfold jsToLower
  induction s with
  | nil => rfl
  | cons c cs ih =>
    rw [List.map_cons, h c (List.mem_cons_self _ _),
      ih (fun x hx => h x (List.mem_cons_of_mem _ hx))]

/-- Trimming fixes a string with no leading and no trailing whitespace. -/
theorem jsTrim_eq_self (s : JSStr) (h1 : ∀ c, s.head? = some c → jsIsWs c = false)
    (h2 : ∀ c, s.reverse.head? = some c → jsIsWs c = false) : jsTrim s = s := by
  unfold jsTrim
  rw [dropWhile_head_neg _ _ h1, dropWhile_head_neg _ _ h2, List.reverse_reverse]

/-- Whitespace removal fixes a whitespace-free string. -/
theorem deleteWs_eq_self (s : JSStr) (h : ∀ c ∈ s, jsIsWs c = false) :
    deleteWs s = s := by
  unfold deleteWs
  rw [List.filter_eq_self]
  intro a ha
  simp [h a ha]

/- ## Claim C7 -/

/-- Characters outside the digit class never occur in a rendered number. -/
theorem not_mem_natLit (c : Char) (h : isDigitB c = false) (n : ℕ) : c ∉ natLit n :=
  fun hm => by
    have htrue := natLit_all_digits n c hm
    rw [h] at htrue
    exact Bool.false_ne_true htrue

/-- Nonzero digits do not render as `'0'`. -/
theorem digitChar_ne_zero (d : ℕ) (hlt : d < 10) (hne : d ≠ 0) : digitChar d ≠ '0' := by
  interval_cases d <;> simp_all <;> decide

/-- The `toFixed(1)`-then-normalize pipeline of `formatWithSuffix` produces
exactly the claim's one-decimal rendering, for nonnegative inputs. -/
theorem compact_body (x : ℚ) (hx : 0 ≤ x) :
    replaceFirst ['.'] [','] (dropDotZero (toFixed1 x)) = claimCompact1dp x := by
  have hr : 0 ≤ ⌊x * 10 + 1 / 2⌋ := Int.le_floor.mpr (by push_cast; linarith)
  have hna : (⌊x * 10 + 1 / 2⌋).natAbs = (⌊x * 10 + 1 / 2⌋).toNat := by omega
  rw [toFixed1, claimCompact1dp, if_neg (by omega), hna, List.nil_append]
  set n : ℕ := (⌊x * 10 + 1 / 2⌋).toNat with hn
  have hmod10 : n % 10 < 10 := by omega
  by_cases hmod : n % 10 = 0
  · rw [if_pos hmod, hmod]
    have hshape : natLit (n / 10) ++ '.' :: [digitChar 0] = natLit (n / 10) ++ ['.', '0'] :=
      rfl
    rw [hshape, dropDotZero, if_pos (by rw [endsWithStr_dot_digit]; decide),
      show natLit (n / 10) ++ ['.', '0'] = (natLit (n / 10) ++ ['.']) ++ ['0'] by simp,
      List.dropLast_concat, List.dropLast_concat]
    exact replaceFirst_not_mem '.' [] [','] _ (not_mem_natLit '.' (by decide) _)
  · rw [if_neg hmod]
    have hshape : natLit (n / 10) ++ '.' :: [digitChar (n % 10)] =
        natLit (n / 10) ++ ['.'] ++ [digitChar (n % 10)] := by simp
    have hends : endsWithStr (natLit (n / 10) ++ '.' :: [digitChar (n % 10)]) (lit ".0")
        = false := by
      rw [show natLit (n / 10) ++ '.' :: [digitChar (n % 10)] =
          (natLit (n / 10)) ++ ['.', digitChar (n % 10)] from rfl,
        endsWithStr_dot_digit]
      simp [digitChar_ne_zero (n % 10) hmod10 hmod]
    rw [dropDotZero, if_neg (by rw [hends]; exact Bool.false_ne_true), hshape,
      replaceFirst_split '.' [] [','] _ _ (not_mem_natLit '.' (by decide) _)]
    simp

/-- C7. `formatCompactNumber` realizes the claim's specification: millions
render as the one-decimal compact string with a `млн` suffix, thousands with
`тыс`, and everything below 1000 through the ru-RU locale formatter; the
sign prefixes, the dropped `.0` and the decimal comma behave as stated. -/
theorem c7_formatCompactNumber_spec (v : ℚ) : formatCompactNumber v = formatCompactClaim v := by
  have hdash : lit "-" = ['-'] := rfl
  have hmln : lit " млн" = ' ' :: lit "млн" := rfl
  have htys : lit " тыс" = ' ' :: lit "тыс" := rfl
  simp only [formatCompactNumber, formatCompactClaim, formatWithSuffix, hdash, hmln, htys]
  by_cases habs1 : |v| ≥ 1000000
  · rw [if_pos habs1, if_pos habs1, compact_body _ (by positivity)]
  · rw [if_neg habs1, if_neg habs1]
    by_cases habs2 : |v| ≥ 1000
    · have hcl : 1000 ≤ |v| ∧ |v| < 1000000 := ⟨habs2, lt_of_not_ge habs1⟩
      rw [if_pos habs2, if_pos hcl, compact_body _ (by positivity)]
    · have hcl : ¬(1000 ≤ |v| ∧ |v| < 1000000) := fun hc => habs2 hc.1
      rw [if_neg habs2, if_neg hcl]

/- ## Claim C10: parsing back formatted numbers -/

/-- Combined fixpoint for the trim-and-lowercase normalization. -/
theorem normalize_fix (s : JSStr)
    (h1 : ∀ c, s.head? = some c → jsIsWs c = false)
    (h2 : ∀ c, s.reverse.head? = some c → jsIsWs c = false)
    (h3 : ∀ c ∈ s, jsCharLower c = c) :
    jsToLower (jsTrim s) = s := by
  rw [jsTrim_eq_self s h1 h2, jsToLower_eq_self s h3]

/-- Whitespace removal deletes exactly the single space of our formatted
strings. -/
theorem deleteWs_one_space (A B : JSStr) (hA : ∀ c ∈ A, jsIsWs c = false)
    (hB : ∀ c ∈ B, jsIsWs c = false) : deleteWs (A ++ ' ' :: B) = A ++ B := by
  unfold deleteWs
  rw [List.filter_append, List.filter_cons]
  have hsp : (!jsIsWs ' ') = false := by decide
  rw [hsp]
  simp only [Bool.false_eq_true, if_false]
  rw [List.filter_eq_self.mpr (fun c hc => by simp [hA c hc]),
    List.filter_eq_self.mpr (fun c hc => by simp [hB c hc])]

/-- The value of a single digit character string. -/
theorem digitsVal_single (d : ℕ) (h : d < 10) : digitsVal [digitChar d] = d := by
  unfold digitsVal
  simp [digitVal_digitChar d h]

/-- Parsing the plain rendering of a natural number returns it. -/
theorem parse_plain_pos (a : ℕ) :
    parseNumericValue (NumericValue.str (natLit a)) = (a : ℚ) := by
  have hdig := natLit_all_digits a
  have hlower : ∀ c ∈ natLit a, jsCharLower c = c :=
    fun c hc => isDigitB_lower c (hdig c hc)
  have hws : ∀ c ∈ natLit a, jsIsWs c = false :=
    fun c hc => isDigitB_not_ws c (hdig c hc)
  have hnorm : jsToLower (jsTrim (natLit a)) = natLit a := by
    refine normalize_fix _ ?_ ?_ hlower
    · intro c hc
      exact hws c (List.mem_of_mem_head? hc)
    · intro c hc
      have : c ∈ (natLit a).reverse := List.mem_of_mem_head? hc
      exact hws c (List.mem_reverse.mp this)
  have hdel : deleteWs (natLit a) = natLit a := deleteWs_eq_self _ hws
  have hcomma : replaceFirst [','] ['.'] (natLit a) = natLit a :=
    replaceFirst_not_mem ',' [] ['.'] _ (not_mem_natLit ',' (by decide) a)
  have hmln : containsSub (lit "млн") (natLit a) = false :=
    containsSub_false_of_not_mem 'м' _ _ (not_mem_natLit 'м' (by decide) a)
  have htys : containsSub (lit "тыс") (natLit a) = false :=
    containsSub_false_of_not_mem 'т' _ _ (not_mem_natLit 'т' (by decide) a)
  have hk : endsWithStr (natLit a) (lit "k") = false :=
    endsWithStr_single_false 'k' _ (not_mem_natLit 'k' (by decide) a)
  have hpf : parseFloat (natLit a) = some (a : ℚ) := by
    rw [parseFloat_digits _ (natLit_ne_nil a) hdig, digitsVal_natLit]
  simp only [parseNumericValue, hnorm, hdel, hcomma, hmln, htys, hk,
    Bool.false_eq_true, if_false, hpf]
  ring

/-- Parsing the rendering of a negated natural number returns its
negation. -/
theorem parse_plain_neg (a : ℕ) :
    parseNumericValue (NumericValue.str ('-' :: natLit a)) = -(a : ℚ) := by
  have hdig := natLit_all_digits a
  have hall : ∀ c ∈ '-' :: natLit a, jsIsWs c = false := by
    intro c hc
    rcases List.mem_cons.mp hc with rfl | hc2
    · decide
    · exact isDigitB_not_ws c (hdig c hc2)
  have hlower : ∀ c ∈ '-' :: natLit a, jsCharLower c = c := by
    intro c hc
    rcases List.mem_cons.mp hc with rfl | hc2
    · decide
    · exact isDigitB_lower c (hdig c hc2)
  have hnorm : jsToLower (jsTrim ('-' :: natLit a)) = '-' :: natLit a := by
    refine normalize_fix _ ?_ ?_ hlower
    · intro c hc
      exact hall c (List.mem_of_mem_head? hc)
    · intro c hc
      have : c ∈ ('-' :: natLit a).reverse := List.mem_of_mem_head? hc
      exact hall c (List.mem_reverse.mp this)
  have hdel : deleteWs ('-' :: natLit a) = '-' :: natLit a := deleteWs_eq_self _ hall
  have hnotmem : ∀ x : Char, isDigitB x = false → x ≠ '-' → x ∉ '-' :: natLit a := by
    intro x hx hne hc
    rcases List.mem_cons.mp hc with rfl | hc2
    · exact hne rfl
    · exact absurd (hdig x hc2) (by simp [hx])
  have hcomma : replaceFirst [','] ['.'] ('-' :: natLit a) = '-' :: natLit a :=
    replaceFirst_not_mem ',' [] ['.'] _ (hnotmem ',' (by decide) (by decide))
  have hmln : containsSub (lit "млн") ('-' :: natLit a) = false :=
    containsSub_false_of_not_mem 'м' _ _ (hnotmem 'м' (by decide) (by decide))
  have htys : containsSub (lit "тыс") ('-' :: natLit a) = false :=
    containsSub_false_of_not_mem 'т' _ _ (hnotmem 'т' (by decide) (by decide))
  have hk : endsWithStr ('-' :: natLit a) (lit "k") = false :=
    endsWithStr_single_false 'k' _ (hnotmem 'k' (by decide) (by decide))
  have hpf : parseFloat ('-' :: natLit a) = some (-(a : ℚ)) := by
    rw [parseFloat_digits_neg _ (natLit_ne_nil a) hdig, digitsVal_natLit]
  simp only [parseNumericValue, hnorm, hdel, hcomma, hmln, htys, hk,
    Bool.false_eq_true, if_false, hpf]
  ring

/-- Head of an append with nonempty left part. -/
theorem head?_append_left (A B : JSStr) (h : A ≠ []) : (A ++ B).head? = A.head? := by
  cases A with
  | nil => exact absurd rfl h
  | cons x xs => rfl

/-- Parsing the positive compact rendering with a decimal digit and a
`тыс`/`млн` marker recovers the scaled value. -/
theorem parse_marked_frac_pos (q d : ℕ) (hd : d < 10) (mark : JSStr) (mult : ℚ)
    (hmark : (mark = lit "тыс" ∧ mult = 1000) ∨ (mark = lit "млн" ∧ mult = 1000000)) :
    parseNumericValue (NumericValue.str
      (natLit q ++ ',' :: digitChar d :: ' ' :: mark)) = ((q : ℚ) + (d : ℚ) / 10) * mult := by
  have hdig := natLit_all_digits q
  have hDd : isDigitB (digitChar d) = true := isDigitB_digitChar d hd
  have hmark_ws : ∀ c ∈ mark, jsIsWs c = false := by
    rcases hmark with ⟨rfl, _⟩ | ⟨rfl, _⟩ <;> decide
  have hmark_lower : ∀ c ∈ mark, jsCharLower c = c := by
    rcases hmark with ⟨rfl, _⟩ | ⟨rfl, _⟩ <;> decide
  have hmark_ne : mark ≠ [] := by
    rcases hmark with ⟨rfl, _⟩ | ⟨rfl, _⟩ <;> decide
  set S := natLit q ++ ',' :: digitChar d :: ' ' :: mark with hS
  have hSsplit : S = (natLit q ++ [',', digitChar d, ' ']) ++ mark := by simp [hS]
  have hnorm : jsToLower (jsTrim S) = S := by
    refine normalize_fix _ ?_ ?_ ?_
    · intro c hc
      rw [hS, head?_append_left _ _ (natLit_ne_nil q)] at hc
      exact isDigitB_not_ws c (hdig c (List.mem_of_mem_head? hc))
    · intro c hc
      rw [hSsplit, List.reverse_append,
        head?_append_left _ _ (by simp [hmark_ne])] at hc
      have hcm : c ∈ mark := List.mem_reverse.mp (List.mem_of_mem_head? hc)
      exact hmark_ws c hcm
    · intro c hc
      rw [hS] at hc
      simp only [List.mem_append, List.mem_cons] at hc
      rcases hc with hc | rfl | rfl | rfl | hc
      · exact isDigitB_lower c (hdig c hc)
      · decide
      · exact isDigitB_lower _ hDd
      · decide
      · exact hmark_lower c hc
  have hASsplit : S = (natLit q ++ [',', digitChar d]) ++ ' ' :: mark := by simp [hS]
  have hdel : deleteWs S = natLit q ++ ',' :: digitChar d :: mark := by
    rw [hASsplit, deleteWs_one_space _ _ ?_ hmark_ws]
    · simp
    · intro c hc
      simp only [List.mem_append, List.mem_cons, List.not_mem_nil, or_false] at hc
      rcases hc with hc | rfl | rfl
      · exact isDigitB_not_ws c (hdig c hc)
      · decide
      · exact isDigitB_not_ws _ hDd
  have hcomma : replaceFirst [','] ['.'] (natLit q ++ ',' :: digitChar d :: mark) =
      natLit q ++ '.' :: digitChar d :: mark := by
    have h1 : natLit q ++ ',' :: digitChar d :: mark =
        natLit q ++ [','] ++ (digitChar d :: mark) := by simp
    have h2 : natLit q ++ ['.'] ++ (digitChar d :: mark) =
        natLit q ++ '.' :: digitChar d :: mark := by simp
    rw [h1, replaceFirst_split ',' [] ['.'] _ _ (not_mem_natLit ',' (by decide) q), h2]
  set T := natLit q ++ '.' :: digitChar d :: mark with hT
  have hTsplit : T = (natLit q ++ '.' :: [digitChar d]) ++ mark ++ [] := by simp [hT]
  have hcorene : natLit q ≠ [] := natLit_ne_nil q
  have hnotmemT : ∀ x : Char, isDigitB x = false → x ≠ '.' → x ∉ mark → x ∉ T := by
    intro x hx hdot hm hcT
    rw [hT] at hcT
    simp only [List.mem_append, List.mem_cons] at hcT
    rcases hcT with hc | rfl | rfl | hc
    · exact absurd (hdig x hc) (by simp [hx])
    · exact hdot rfl
    · exact absurd hDd (by simp [hx])
    · exact hm hc
  have hfs : ∀ c ∈ [digitChar d], isDigitB c = true := by
    intro c hc
    rcases List.mem_cons.mp hc with rfl | hc2
    · exact hDd
    · simp at hc2
  have hpf : parseFloat (natLit q ++ '.' :: [digitChar d]) =
      some ((q : ℚ) + (d : ℚ) / 10) := by
    rw [parseFloat_digits_frac _ _ hcorene hdig hfs, digitsVal_natLit,
      digitsVal_single d hd]
    norm_num
  rcases hmark with ⟨rfl, rfl⟩ | ⟨rfl, rfl⟩
  · have hmln : containsSub (lit "млн") T = false :=
      containsSub_false_of_not_mem 'м' _ _
        (hnotmemT 'м' (by decide) (by decide) (by decide))
    have htys : containsSub (lit "тыс") T = true := by
      rw [hTsplit]
      exact containsSub_parts _ _ _
    have hrem : replaceFirst (lit "тыс") [] T = natLit q ++ '.' :: [digitChar d] := by
      have hlit : lit "тыс" = 'т' :: lit "ыс" := rfl
      have hTsplit2 : T = (natLit q ++ '.' :: [digitChar d]) ++ ('т' :: lit "ыс") ++ [] := by
        simp [hT]
        rfl
      rw [hlit, hTsplit2, replaceFirst_split 'т' _ [] _ _ ?_]
      · simp
      · intro hcT
        simp only [List.mem_append, List.mem_cons, List.not_mem_nil, or_false] at hcT
        rcases hcT with hc | h2 | h3
        · exact absurd (hdig _ hc) (by decide)
        · exact absurd h2 (by decide)
        · have hDd2 := hDd
          rw [← h3] at hDd2
          exact absurd hDd2 (by decide)
    simp only [parseNumericValue, hnorm, hdel, hcomma, ← hT, hmln, htys,
      Bool.false_eq_true, if_false, if_true, hrem, hpf]
  · have hmln : containsSub (lit "млн") T = true := by
      rw [hTsplit]
      exact containsSub_parts _ _ _
    have hrem : replaceFirst (lit "млн") [] T = natLit q ++ '.' :: [digitChar d] := by
      have hlit : lit "млн" = 'м' :: lit "лн" := rfl
      have hTsplit2 : T = (natLit q ++ '.' :: [digitChar d]) ++ ('м' :: lit "лн") ++ [] := by
        simp [hT]
        rfl
      rw [hlit, hTsplit2, replaceFirst_split 'м' _ [] _ _ ?_]
      · simp
      · intro hcT
        simp only [List.mem_append, List.mem_cons, List.not_mem_nil, or_false] at hcT
        rcases hcT with hc | h2 | h3
        · exact absurd (hdig _ hc) (by decide)
        · exact absurd h2 (by decide)
        · have hDd2 := hDd
          rw [← h3] at hDd2
          exact absurd hDd2 (by decide)
    simp only [parseNumericValue, hnorm, hdel, hcomma, ← hT, hmln,
      Bool.false_eq_true, if_false, if_true, hrem, hpf]

/-- Parsing the negative compact rendering with a decimal digit and a
`тыс`/`млн` marker recovers the scaled negated value. -/
theorem parse_marked_frac_neg (q d : ℕ) (hd : d < 10) (mark : JSStr) (mult : ℚ)
    (hmark : (mark = lit "тыс" ∧ mult = 1000) ∨ (mark = lit "млн" ∧ mult = 1000000)) :
    parseNumericValue (NumericValue.str
      ('-' :: (natLit q ++ ',' :: digitChar d :: ' ' :: mark))) =
      -((q : ℚ) + (d : ℚ) / 10) * mult := by
  have hdig := natLit_all_digits q
  have hDd : isDigitB (digitChar d) = true := isDigitB_digitChar d hd
  have hmark_ws : ∀ c ∈ mark, jsIsWs c = false := by
    rcases hmark with ⟨rfl, _⟩ | ⟨rfl, _⟩ <;> decide
  have hmark_lower : ∀ c ∈ mark, jsCharLower c = c := by
    rcases hmark with ⟨rfl, _⟩ | ⟨rfl, _⟩ <;> decide
  have hmark_ne : mark ≠ [] := by
    rcases hmark with ⟨rfl, _⟩ | ⟨rfl, _⟩ <;> decide
  set S := '-' :: (natLit q ++ ',' :: digitChar d :: ' ' :: mark) with hS
  have hSsplit : S = ('-' :: natLit q ++ [',', digitChar d, ' ']) ++ mark := by simp [hS]
  have hnorm : jsToLower (jsTrim S) = S := by
    refine normalize_fix _ ?_ ?_ ?_
    · intro c hc
      rw [hS] at hc
      injection hc with hc
      subst hc
      decide
    · intro c hc
      rw [hSsplit, List.reverse_append,
        head?_append_left _ _ (by simp [hmark_ne])] at hc
      have hcm : c ∈ mark := List.mem_reverse.mp (List.mem_of_mem_head? hc)
      exact hmark_ws c hcm
    · intro c hc
      rw [hS] at hc
      simp only [List.mem_cons, List.mem_append] at hc
      rcases hc with rfl | hc | rfl | rfl | rfl | hc
      · decide
      · exact isDigitB_lower c (hdig c hc)
      · decide
      · exact isDigitB_lower _ hDd
      · decide
      · exact hmark_lower c hc
  have hASsplit : S = ('-' :: (natLit q ++ [',', digitChar d])) ++ ' ' :: mark := by
    simp [hS]
  have hdel : deleteWs S = '-' :: (natLit q ++ ',' :: digitChar d :: mark) := by
    rw [hASsplit, deleteWs_one_space _ _ ?_ hmark_ws]
    · simp
    · intro c hc
      simp only [List.mem_cons, List.mem_append, List.not_mem_nil, or_false] at hc
      rcases hc with rfl | hc | rfl | rfl
      · decide
      · exact isDigitB_not_ws c (hdig c hc)
      · decide
      · exact isDigitB_not_ws _ hDd
  have hcomma : replaceFirst [','] ['.'] ('-' :: (natLit q ++ ',' :: digitChar d :: mark)) =
      '-' :: (natLit q ++ '.' :: digitChar d :: mark) := by
    have h1 : '-' :: (natLit q ++ ',' :: digitChar d :: mark) =
        ('-' :: natLit q) ++ [','] ++ (digitChar d :: mark) := by simp
    have h2 : ('-' :: natLit q) ++ ['.'] ++ (digitChar d :: mark) =
        '-' :: (natLit q ++ '.' :: digitChar d :: mark) := by simp
    have hnm : ',' ∉ '-' :: natLit q := by
      intro hmem
      rcases List.mem_cons.mp hmem with h3 | h3
      · exact absurd h3 (by decide)
      · exact absurd (hdig _ h3) (by decide)
    rw [h1, replaceFirst_split ',' [] ['.'] _ _ hnm, h2]
  set T := '-' :: (natLit q ++ '.' :: digitChar d :: mark) with hT
  have hTsplit : T = ('-' :: (natLit q ++ '.' :: [digitChar d])) ++ mark ++ [] := by
    simp [hT]
  have hcorene : natLit q ≠ [] := natLit_ne_nil q
  have hfs : ∀ c ∈ [digitChar d], isDigitB c = true := by
    intro c hc
    rcases List.mem_cons.mp hc with rfl | hc2
    · exact hDd
    · simp at hc2
  have hpf : parseFloat ('-' :: (natLit q ++ '.' :: [digitChar d])) =
      some (-((q : ℚ) + (d : ℚ) / 10)) := by
    rw [parseFloat_digits_frac_neg _ _ hcorene hdig hfs, digitsVal_natLit,
      digitsVal_single d hd]
    norm_num
  have hnotmemCore : ∀ x : Char, isDigitB x = false → x ≠ '.' → x ≠ '-' →
      x ∉ '-' :: (natLit q ++ '.' :: [digitChar d]) := by
    intro x hx hdot hdash hcT
    simp only [List.mem_cons, List.mem_append, List.not_mem_nil, or_false] at hcT
    rcases hcT with h2 | hc | h2 | h3
    · exact hdash h2
    · exact absurd (hdig x hc) (by simp [hx])
    · exact hdot h2
    · have hDd2 := hDd
      rw [← h3] at hDd2
      exact absurd hDd2 (by simp [hx])
  have hnotmemT : ∀ x : Char, isDigitB x = false → x ≠ '.' → x ≠ '-' → x ∉ mark →
      x ∉ T := by
    intro x hx hdot hdash hm hcT
    rw [hTsplit] at hcT
    simp only [List.mem_append, List.not_mem_nil, or_false] at hcT
    rcases hcT with hc | hc
    · exact hnotmemCore x hx hdot hdash hc
    · exact hm hc
  rcases hmark with ⟨rfl, rfl⟩ | ⟨rfl, rfl⟩
  · have hmln : containsSub (lit "млн") T = false :=
      containsSub_false_of_not_mem 'м' _ _
        (hnotmemT 'м' (by decide) (by decide) (by decide) (by decide))
    have htys : containsSub (lit "тыс") T = true := by
      rw [hTsplit]
      exact containsSub_parts _ _ _
    have hrem : replaceFirst (lit "тыс") [] T =
        '-' :: (natLit q ++ '.' :: [digitChar d]) := by
      have hlit : lit "тыс" = 'т' :: lit "ыс" := rfl
      have hTsplit2 : T = ('-' :: (natLit q ++ '.' :: [digitChar d])) ++
          ('т' :: lit "ыс") ++ [] := by
        rw [hTsplit]
        rfl
      rw [hlit, hTsplit2,
        replaceFirst_split 'т' _ [] _ _
          (hnotmemCore 'т' (by decide) (by decide) (by decide))]
      simp
    simp only [parseNumericValue, hnorm, hdel, hcomma, ← hT, hmln, htys,
      Bool.false_eq_true, if_false, if_true, hrem, hpf]
  · have hmln : containsSub (lit "млн") T = true := by
      rw [hTsplit]
      exact containsSub_parts _ _ _
    have hrem : replaceFirst (lit "млн") [] T =
        '-' :: (natLit q ++ '.' :: [digitChar d]) := by
      have hlit : lit "млн" = 'м' :: lit "лн" := rfl
      have hTsplit2 : T = ('-' :: (natLit q ++ '.' :: [digitChar d])) ++
          ('м' :: lit "лн") ++ [] := by
        rw [hTsplit]
        rfl
      rw [hlit, hTsplit2,
        replaceFirst_split 'м' _ [] _ _
          (hnotmemCore 'м' (by decide) (by decide) (by decide))]
      simp
    simp only [parseNumericValue, hnorm, hdel, hcomma, ← hT, hmln,
      Bool.false_eq_true, if_false, if_true, hrem, hpf]

/-- Parsing the positive compact rendering without a decimal digit and with
a `тыс`/`млн` marker recovers the scaled value. -/
theorem parse_marked_nofrac_pos (q : ℕ) (mark : JSStr) (mult : ℚ)
    (hmark : (mark = lit "тыс" ∧ mult = 1000) ∨ (mark = lit "млн" ∧ mult = 1000000)) :
    parseNumericValue (NumericValue.str (natLit q ++ ' ' :: mark)) = (q : ℚ) * mult := by
  have hdig := natLit_all_digits q
  have hmark_ws : ∀ c ∈ mark, jsIsWs c = false := by
    rcases hmark with ⟨rfl, _⟩ | ⟨rfl, _⟩ <;> decide
  have hmark_lower : ∀ c ∈ mark, jsCharLower c = c := by
    rcases hmark with ⟨rfl, _⟩ | ⟨rfl, _⟩ <;> decide
  have hmark_ne : mark ≠ [] := by
    rcases hmark with ⟨rfl, _⟩ | ⟨rfl, _⟩ <;> decide
  have hmark_nocomma : ',' ∉ mark := by
    rcases hmark with ⟨rfl, _⟩ | ⟨rfl, _⟩ <;> decide
  set S := natLit q ++ ' ' :: mark with hS
  have hSsplit : S = (natLit q ++ [' ']) ++ mark := by simp [hS]
  have hnorm : jsToLower (jsTrim S) = S := by
    refine normalize_fix _ ?_ ?_ ?_
    · intro c hc
      rw [hS, head?_append_left _ _ (natLit_ne_nil q)] at hc
      exact isDigitB_not_ws c (hdig c (List.mem_of_mem_head? hc))
    · intro c hc
      rw [hSsplit, List.reverse_append,
        head?_append_left _ _ (by simp [hmark_ne])] at hc
      exact hmark_ws c (List.mem_reverse.mp (List.mem_of_mem_head? hc))
    · intro c hc
      rw [hS] at hc
      simp only [List.mem_append, List.mem_cons] at hc
      rcases hc with hc | rfl | hc
      · exact isDigitB_lower c (hdig c hc)
      · decide
      · exact hmark_lower c hc
  have hdel : deleteWs S = natLit q ++ mark := by
    rw [hS, deleteWs_one_space _ _ (fun c hc => isDigitB_not_ws c (hdig c hc)) hmark_ws]
  have hcomma : replaceFirst [','] ['.'] (natLit q ++ mark) = natLit q ++ mark := by
    refine replaceFirst_not_mem ',' [] ['.'] _ ?_
    intro hmem
    rcases List.mem_append.mp hmem with hc | hc
    · exact absurd (hdig _ hc) (by decide)
    · exact hmark_nocomma hc
  set T := natLit q ++ mark with hT
  have hTsplit : T = natLit q ++ mark ++ [] := by simp [hT]
  have hpf : parseFloat (natLit q) = some (q : ℚ) := by
    rw [parseFloat_digits _ (natLit_ne_nil q) hdig, digitsVal_natLit]
  have hnotmemT : ∀ x : Char, isDigitB x = false → x ∉ mark → x ∉ T := by
    intro x hx hm hcT
    rcases List.mem_append.mp hcT with hc | hc
    · exact absurd (hdig x hc) (by simp [hx])
    · exact hm hc
  rcases hmark with ⟨rfl, rfl⟩ | ⟨rfl, rfl⟩
  · have hmln : containsSub (lit "млн") T = false :=
      containsSub_false_of_not_mem 'м' _ _ (hnotmemT 'м' (by decide) (by decide))
    have htys : containsSub (lit "тыс") T = true := by
      rw [hTsplit]
      exact containsSub_parts _ _ _
    have hrem : replaceFirst (lit "тыс") [] T = natLit q := by
      have hlit : lit "тыс" = 'т' :: lit "ыс" := rfl
      have hTsplit2 : T = natLit q ++ ('т' :: lit "ыс") ++ [] := by
        rw [hTsplit]
        rfl
      rw [hlit, hTsplit2,
        replaceFirst_split 'т' _ [] _ _ (not_mem_natLit 'т' (by decide) q)]
      simp
    simp only [parseNumericValue, hnorm, hdel, hcomma, ← hT, hmln, htys,
      Bool.false_eq_true, if_false, if_true, hrem, hpf]
  · have hmln : containsSub (lit "млн") T = true := by
      rw [hTsplit]
      exact containsSub_parts _ _ _
    have hrem : replaceFirst (lit "млн") [] T = natLit q := by
      have hlit : lit "млн" = 'м' :: lit "лн" := rfl
      have hTsplit2 : T = natLit q ++ ('м' :: lit "лн") ++ [] := by
        rw [hTsplit]
        rfl
      rw [hlit, hTsplit2,
        replaceFirst_split 'м' _ [] _ _ (not_mem_natLit 'м' (by decide) q)]
      simp
    simp only [parseNumericValue, hnorm, hdel, hcomma, ← hT, hmln,
      Bool.false_eq_true, if_false, if_true, hrem, hpf]

/-- Parsing the negative compact rendering without a decimal digit and with
a `тыс`/`млн` marker recovers the scaled negated value. -/
theorem parse_marked_nofrac_neg (q : ℕ) (mark : JSStr) (mult : ℚ)
    (hmark : (mark = lit "тыс" ∧ mult = 1000) ∨ (mark = lit "млн" ∧ mult = 1000000)) :
    parseNumericValue (NumericValue.str ('-' :: (natLit q ++ ' ' :: mark))) =
      -(q : ℚ) * mult := by
  have hdig := natLit_all_digits q
  have hmark_ws : ∀ c ∈ mark, jsIsWs c = false := by
    rcases hmark with ⟨rfl, _⟩ | ⟨rfl, _⟩ <;> decide
  have hmark_lower : ∀ c ∈ mark, jsCharLower c = c := by
    rcases hmark with ⟨rfl, _⟩ | ⟨rfl, _⟩ <;> decide
  have hmark_ne : mark ≠ [] := by
    rcases hmark with ⟨rfl, _⟩ | ⟨rfl, _⟩ <;> decide
  have hmark_nocomma : ',' ∉ mark := by
    rcases hmark with ⟨rfl, _⟩ | ⟨rfl, _⟩ <;> decide
  set S := '-' :: (natLit q ++ ' ' :: mark) with hS
  have hSsplit : S = ('-' :: natLit q ++ [' ']) ++ mark := by simp [hS]
  have hnorm : jsToLower (jsTrim S) = S := by
    refine normalize_fix _ ?_ ?_ ?_
    · intro c hc
      rw [hS] at hc
      injection hc with hc
      subst hc
      decide
    · intro c hc
      rw [hSsplit, List.reverse_append,
        head?_append_left _ _ (by simp [hmark_ne])] at hc
      exact hmark_ws c (List.mem_reverse.mp (List.mem_of_mem_head? hc))
    · intro c hc
      rw [hS] at hc
      simp only [List.mem_cons, List.mem_append] at hc
      rcases hc with rfl | hc | rfl | hc
      · decide
      · exact isDigitB_lower c (hdig c hc)
      · decide
      · exact hmark_lower c hc
  have hASsplit : S = ('-' :: natLit q) ++ ' ' :: mark := by simp [hS]
  have hsignws : ∀ c ∈ '-' :: natLit q, jsIsWs c = false := by
    intro c hc
    rcases List.mem_cons.mp hc with rfl | hc2
    · decide
    · exact isDigitB_not_ws c (hdig c hc2)
  have hdel : deleteWs S = '-' :: (natLit q ++ mark) := by
    rw [hASsplit, deleteWs_one_space _ _ hsignws hmark_ws]
    simp
  have hnm : ∀ x : Char, isDigitB x = false → x ≠ '-' → x ∉ mark →
      x ∉ '-' :: (natLit q ++ mark) := by
    intro x hx hdash hm hcT
    simp only [List.mem_cons, List.mem_append] at hcT
    rcases hcT with h2 | hc | hc
    · exact hdash h2
    · exact absurd (hdig x hc) (by simp [hx])
    · exact hm hc
  have hcomma : replaceFirst [','] ['.'] ('-' :: (natLit q ++ mark)) =
      '-' :: (natLit q ++ mark) :=
    replaceFirst_not_mem ',' [] ['.'] _
      (hnm ',' (by decide) (by decide) hmark_nocomma)
  set T := '-' :: (natLit q ++ mark) with hT
  have hTsplit : T = ('-' :: natLit q) ++ mark ++ [] := by simp [hT]
  have hpf : parseFloat ('-' :: natLit q) = some (-(q : ℚ)) := by
    rw [parseFloat_digits_neg _ (natLit_ne_nil q) hdig, digitsVal_natLit]
  have hnmSign : ∀ x : Char, isDigitB x = false → x ≠ '-' → x ∉ '-' :: natLit q := by
    intro x hx hdash hcT
    rcases List.mem_cons.mp hcT with h2 | hc
    · exact hdash h2
    · exact absurd (hdig x hc) (by simp [hx])
  rcases hmark with ⟨rfl, rfl⟩ | ⟨rfl, rfl⟩
  · have hmln : containsSub (lit "млн") T = false :=
      containsSub_false_of_not_mem 'м' _ _
        (hnm 'м' (by decide) (by decide) (by decide))
    have htys : containsSub (lit "тыс") T = true := by
      rw [hTsplit]
      exact containsSub_parts _ _ _
    have hrem : replaceFirst (lit "тыс") [] T = '-' :: natLit q := by
      have hlit : lit "тыс" = 'т' :: lit "ыс" := rfl
      have hTsplit2 : T = ('-' :: natLit q) ++ ('т' :: lit "ыс") ++ [] := by
        rw [hTsplit]
        rfl
      rw [hlit, hTsplit2,
        replaceFirst_split 'т' _ [] _ _ (hnmSign 'т' (by decide) (by decide))]
      simp
    simp only [parseNumericValue, hnorm, hdel, hcomma, ← hT, hmln, htys,
      Bool.false_eq_true, if_false, if_true, hrem, hpf]
  · have hmln : containsSub (lit "млн") T = true := by
      rw [hTsplit]
      exact containsSub_parts _ _ _
    have hrem : replaceFirst (lit "млн") [] T = '-' :: natLit q := by
      have hlit : lit "млн" = 'м' :: lit "лн" := rfl
      have hTsplit2 : T = ('-' :: natLit q) ++ ('м' :: lit "лн") ++ [] := by
        rw [hTsplit]
        rfl
      rw [hlit, hTsplit2,
        replaceFirst_split 'м' _ [] _ _ (hnmSign 'м' (by decide) (by decide))]
      simp
    simp only [parseNumericValue, hnorm, hdel, hcomma, ← hT, hmln,
      Bool.false_eq_true, if_false, if_true, hrem, hpf]

/-- Floor of an integer plus one half. -/
theorem floor_intCast_add_half (z : ℤ) : ⌊(z : ℚ) + 1 / 2⌋ = z := by
  rw [Int.floor_eq_iff]
  norm_num

/-- Grouping is the identity on at most three digits. -/
theorem groupRev_short (l : JSStr) (h : l.length ≤ 3) : groupRev l = l := by
  rcases l with _ | ⟨a, _ | ⟨b, _ | ⟨c, _ | ⟨d, t⟩⟩⟩⟩
  · rfl
  · rfl
  · rfl
  · rfl
  · simp only [List.length_cons] at h
    omega

/-- Thousands grouping is the identity on at most three digits. -/
theorem groupThousands_short (s : JSStr) (h : s.length ≤ 3) : groupThousands s = s := by
  rw [groupThousands, groupRev_short _ (by simpa using h), List.reverse_reverse]

/-- No fractional digits are rendered for an integral value. -/
theorem fracRender_zero : fracRender 0 = [] := by decide

/-- The absolute value of an integer cast to the rationals. -/
theorem cast_abs_natAbs (n : ℤ) : |(n : ℚ)| = ((n.natAbs : ℕ) : ℚ) := by
  rw [Int.cast_natAbs]
  exact Int.cast_abs.symm

/-- The ru-RU formatter renders a small integer as its plain decimal
string. -/
theorem intlRuFormat_int (n : ℤ) (h : |n| < 1000) :
    intlRuFormat (n : ℚ) = (if n < 0 then ['-'] else []) ++ natLit n.natAbs := by
  rw [Int.abs_eq_natAbs] at h
  have ha : n.natAbs < 1000 := by omega
  have hfloor : ⌊|(n : ℚ)| * 1000 + 1 / 2⌋ = ((1000 * n.natAbs : ℕ) : ℤ) := by
    rw [cast_abs_natAbs,
      show ((n.natAbs : ℕ) : ℚ) * 1000 + 1 / 2 = ((1000 * n.natAbs : ℕ) : ℚ) + 1 / 2 by
        push_cast; ring]
    exact_mod_cast floor_intCast_add_half ((1000 * n.natAbs : ℕ) : ℤ)
  have htoNat : (⌊|(n : ℚ)| * 1000 + 1 / 2⌋).toNat = 1000 * n.natAbs := by
    rw [hfloor]
    exact Int.toNat_natCast _
  have hq : 1000 * n.natAbs / 1000 = n.natAbs := by omega
  have hr : 1000 * n.natAbs % 1000 = 0 := by omega
  have hsign : ((n : ℚ) < 0) ↔ (n < 0) := by exact_mod_cast Int.cast_lt_zero
  simp only [intlRuFormat, htoNat, hq, hr, fracRender_zero, List.append_nil,
    groupThousands_short _ (natLit_length_le_three _ ha)]
  by_cases hneg : n < 0
  · rw [if_pos (hsign.mpr hneg), if_pos hneg]
  · rw [if_neg (fun hc => hneg (hsign.mp hc)), if_neg hneg]

/-- Below 1000, `formatCompactNumber` of an integer is its plain decimal
rendering. -/
theorem format_small (n : ℤ) (h : |n| < 1000) :
    formatCompactNumber (n : ℚ) = (if n < 0 then ['-'] else []) ++ natLit n.natAbs := by
  have hna : n.natAbs < 1000 := by
    rw [Int.abs_eq_natAbs] at h
    omega
  have hq : |(n : ℚ)| < 1000 := by
    rw [cast_abs_natAbs]
    exact_mod_cast hna
  simp only [formatCompactNumber]
  rw [if_neg (by linarith), if_neg (by linarith), intlRuFormat_int n h]

/-- In the thousands range a multiple of 100 formats as its compact one
decimal `тыс` string. -/
theorem format_tys (n : ℤ) (h1 : 1000 ≤ |n|) (h2 : |n| < 1000000)
    (hdvd : (100 : ℤ) ∣ n) :
    formatCompactNumber (n : ℚ) =
      (if n < 0 then ['-'] else []) ++
        ((if (n.natAbs / 100) % 10 = 0 then natLit (n.natAbs / 100 / 10)
          else natLit (n.natAbs / 100 / 10) ++
            ',' :: [digitChar ((n.natAbs / 100) % 10)]) ++
          ' ' :: lit "тыс") := by
  rw [Int.abs_eq_natAbs] at h1 h2
  have ha1 : 1000 ≤ n.natAbs := by omega
  have ha2 : n.natAbs < 1000000 := by omega
  have hdvd' : (100 : ℕ) ∣ n.natAbs := by
    have h3 := Int.natAbs_dvd_natAbs.mpr hdvd
    simpa using h3
  have habs := cast_abs_natAbs n
  have hqlo : (1000 : ℚ) ≤ |(n : ℚ)| := by
    rw [habs]
    exact_mod_cast ha1
  have hqhi : |(n : ℚ)| < 1000000 := by
    rw [habs]
    exact_mod_cast ha2
  have hfloor : ⌊|(n : ℚ)| / 1000 * 10 + 1 / 2⌋ = ((n.natAbs / 100 : ℕ) : ℤ) := by
    have ha' : n.natAbs = 100 * (n.natAbs / 100) := by omega
    have hx : |(n : ℚ)| / 1000 * 10 + 1 / 2 = ((n.natAbs / 100 : ℕ) : ℚ) + 1 / 2 := by
      rw [habs]
      conv_lhs => rw [ha']
      push_cast
      ring
    rw [hx]
    exact_mod_cast floor_intCast_add_half ((n.natAbs / 100 : ℕ) : ℤ)
  have htoNat : (⌊|(n : ℚ)| / 1000 * 10 + 1 / 2⌋).toNat = n.natAbs / 100 := by
    rw [hfloor]
    exact Int.toNat_natCast _
  have hsign : ((n : ℚ) < 0) ↔ (n < 0) := by exact_mod_cast Int.cast_lt_zero
  have hdash : lit "-" = ['-'] := rfl
  simp only [formatCompactNumber, formatWithSuffix]
  rw [if_neg (by linarith), if_pos (by linarith), compact_body _ (by positivity)]
  simp only [claimCompact1dp, htoNat, hdash]
  by_cases hneg : n < 0
  · rw [if_pos (hsign.mpr hneg), if_pos hneg, List.append_assoc]
  · rw [if_neg (fun hc => hneg (hsign.mp hc)), if_neg hneg, List.append_assoc]

/-- In the millions range a multiple of 100000 formats as its compact one
decimal `млн` string. -/
theorem format_mln (n : ℤ) (h1 : 1000000 ≤ |n|) (hdvd : (100000 : ℤ) ∣ n) :
    formatCompactNumber (n : ℚ) =
      (if n < 0 then ['-'] else []) ++
        ((if (n.natAbs / 100000) % 10 = 0 then natLit (n.natAbs / 100000 / 10)
          else natLit (n.natAbs / 100000 / 10) ++
            ',' :: [digitChar ((n.natAbs / 100000) % 10)]) ++
          ' ' :: lit "млн") := by
  rw [Int.abs_eq_natAbs] at h1
  have ha1 : 1000000 ≤ n.natAbs := by omega
  have hdvd' : (100000 : ℕ) ∣ n.natAbs := by
    have h3 := Int.natAbs_dvd_natAbs.mpr hdvd
    simpa using h3
  have habs := cast_abs_natAbs n
  have hqlo : (1000000 : ℚ) ≤ |(n : ℚ)| := by
    rw [habs]
    exact_mod_cast ha1
  have hfloor : ⌊|(n : ℚ)| / 1000000 * 10 + 1 / 2⌋ = ((n.natAbs / 100000 : ℕ) : ℤ) := by
    have ha' : n.natAbs = 100000 * (n.natAbs / 100000) := by omega
    have hx : |(n : ℚ)| / 1000000 * 10 + 1 / 2 =
        ((n.natAbs / 100000 : ℕ) : ℚ) + 1 / 2 := by
      rw [habs]
      conv_lhs => rw [ha']
      push_cast
      ring
    rw [hx]
    exact_mod_cast floor_intCast_add_half ((n.natAbs / 100000 : ℕ) : ℤ)
  have htoNat : (⌊|(n : ℚ)| / 1000000 * 10 + 1 / 2⌋).toNat = n.natAbs / 100000 := by
    rw [hfloor]
    exact Int.toNat_natCast _
  have hsign : ((n : ℚ) < 0) ↔ (n < 0) := by exact_mod_cast Int.cast_lt_zero
  have hdash : lit "-" = ['-'] := rfl
  simp only [formatCompactNumber, formatWithSuffix]
  rw [if_pos (by linarith), compact_body _ (by positivity)]
  simp only [claimCompact1dp, htoNat, hdash]
  by_cases hneg : n < 0
  · rw [if_pos (hsign.mpr hneg), if_pos hneg, List.append_assoc]
  · rw [if_neg (fun hc => hneg (hsign.mp hc)), if_neg hneg, List.append_assoc]

/-- A nonnegative integer casts to the rationals as its absolute value. -/
theorem cast_eq_of_nonneg (n : ℤ) (h : ¬n < 0) : (n : ℚ) = ((n.natAbs : ℕ) : ℚ) := by
  obtain ⟨a, ha⟩ : ∃ a : ℕ, n.natAbs = a := ⟨n.natAbs, rfl⟩
  rw [ha]
  have hn : n = (a : ℤ) := by omega
  rw [hn]
  push_cast
  ring

/-- A negative integer casts to the rationals as minus its absolute value. -/
theorem cast_eq_of_neg (n : ℤ) (h : n < 0) : (n : ℚ) = -((n.natAbs : ℕ) : ℚ) := by
  obtain ⟨a, ha⟩ : ∃ a : ℕ, n.natAbs = a := ⟨n.natAbs, rfl⟩
  rw [ha]
  have hn : n = -(a : ℤ) := by omega
  rw [hn]
  push_cast
  ring

/-- C10. `parseNumericValue` inverts `formatCompactNumber` on the integers
the formatter renders exactly: all integers below 1000 in magnitude,
multiples of 100 in the thousands range, and multiples of 100000 from a
million up. -/
theorem c10_parse_format_roundtrip (n : ℤ) :
    (|n| < 1000 →
      parseNumericValue (NumericValue.str (formatCompactNumber (n : ℚ))) = (n : ℚ)) ∧
    (1000 ≤ |n| → |n| < 1000000 → (100 : ℤ) ∣ n →
      parseNumericValue (NumericValue.str (formatCompactNumber (n : ℚ))) = (n : ℚ)) ∧
    (1000000 ≤ |n| → (100000 : ℤ) ∣ n →
      parseNumericValue (NumericValue.str (formatCompactNumber (n : ℚ))) = (n : ℚ)) := by
  refine ⟨?_, ?_, ?_⟩
  · intro h
    rw [format_small n h]
    by_cases hneg : n < 0
    · rw [if_pos hneg,
        show ['-'] ++ natLit n.natAbs = '-' :: natLit n.natAbs from rfl,
        parse_plain_neg, cast_eq_of_neg n hneg]
    · rw [if_neg hneg, List.nil_append, parse_plain_pos, cast_eq_of_nonneg n hneg]
  · intro h1 h2 hdvd
    rw [format_tys n h1 h2 hdvd]
    rw [Int.abs_eq_natAbs] at h1 h2
    have hdvd' : (100 : ℕ) ∣ n.natAbs := by
      have h3 := Int.natAbs_dvd_natAbs.mpr hdvd
      simpa using h3
    by_cases hm0 : (n.natAbs / 100) % 10 = 0
    · rw [if_pos hm0]
      have hnat : 1000 * (n.natAbs / 100 / 10) = n.natAbs := by omega
      by_cases hneg : n < 0
      · rw [if_pos hneg,
          show ['-'] ++ (natLit (n.natAbs / 100 / 10) ++ ' ' :: lit "тыс") =
            '-' :: (natLit (n.natAbs / 100 / 10) ++ ' ' :: lit "тыс") from rfl,
          parse_marked_nofrac_neg _ _ _ (Or.inl ⟨rfl, rfl⟩),
          cast_eq_of_neg n hneg]
        conv_rhs => rw [← hnat]
        push_cast
        ring
      · rw [if_neg hneg, List.nil_append,
          parse_marked_nofrac_pos _ _ _ (Or.inl ⟨rfl, rfl⟩),
          cast_eq_of_nonneg n hneg]
        conv_rhs => rw [← hnat]
        push_cast
        ring
    · rw [if_neg hm0]
      have hd10 : n.natAbs / 100 % 10 < 10 := by omega
      have hnat : 1000 * (n.natAbs / 100 / 10) + 100 * (n.natAbs / 100 % 10) =
          n.natAbs := by omega
      by_cases hneg : n < 0
      · rw [if_pos hneg,
          show ['-'] ++ ((natLit (n.natAbs / 100 / 10) ++
              ',' :: [digitChar (n.natAbs / 100 % 10)]) ++ ' ' :: lit "тыс") =
            '-' :: (natLit (n.natAbs / 100 / 10) ++
              ',' :: digitChar (n.natAbs / 100 % 10) :: ' ' :: lit "тыс") by simp,
          parse_marked_frac_neg _ _ hd10 _ _ (Or.inl ⟨rfl, rfl⟩),
          cast_eq_of_neg n hneg]
        conv_rhs => rw [← hnat]
        push_cast
        ring
      · rw [if_neg hneg, List.nil_append,
          show (natLit (n.natAbs / 100 / 10) ++
              ',' :: [digitChar (n.natAbs / 100 % 10)]) ++ ' ' :: lit "тыс" =
            natLit (n.natAbs / 100 / 10) ++
              ',' :: digitChar (n.natAbs / 100 % 10) :: ' ' :: lit "тыс" by simp,
          parse_marked_frac_pos _ _ hd10 _ _ (Or.inl ⟨rfl, rfl⟩),
          cast_eq_of_nonneg n hneg]
        conv_rhs => rw [← hnat]
        push_cast
        ring
  · intro h1 hdvd
    rw [format_mln n h1 hdvd]
    rw [Int.abs_eq_natAbs] at h1
    have hdvd' : (100000 : ℕ) ∣ n.natAbs := by
      have h3 := Int.natAbs_dvd_natAbs.mpr hdvd
      simpa using h3
    by_cases hm0 : (n.natAbs / 100000) % 10 = 0
    · rw [if_pos hm0]
      have hnat : 1000000 * (n.natAbs / 100000 / 10) = n.natAbs := by omega
      by_cases hneg : n < 0
      · rw [if_pos hneg,
          show ['-'] ++ (natLit (n.natAbs / 100000 / 10) ++ ' ' :: lit "млн") =
            '-' :: (natLit (n.natAbs / 100000 / 10) ++ ' ' :: lit "млн") from rfl,
          parse_marked_nofrac_neg _ _ _ (Or.inr ⟨rfl, rfl⟩),
          cast_eq_of_neg n hneg]
        conv_rhs => rw [← hnat]
        push_cast
        ring
      · rw [if_neg hneg, List.nil_append,
          parse_marked_nofrac_pos _ _ _ (Or.inr ⟨rfl, rfl⟩),
          cast_eq_of_nonneg n hneg]
        conv_rhs => rw [← hnat]
        push_cast
        ring
    · rw [if_neg hm0]
      have hd10 : n.natAbs / 100000 % 10 < 10 := by omega
      have hnat : 1000000 * (n.natAbs / 100000 / 10) +
          100000 * (n.natAbs / 100000 % 10) = n.natAbs := by omega
      by_cases hneg : n < 0
      · rw [if_pos hneg,
          show ['-'] ++ ((natLit (n.natAbs / 100000 / 10) ++
              ',' :: [digitChar (n.natAbs / 100000 % 10)]) ++ ' ' :: lit "млн") =
            '-' :: (natLit (n.natAbs / 100000 / 10) ++
              ',' :: digitChar (n.natAbs / 100000 % 10) :: ' ' :: lit "млн") by simp,
          parse_marked_frac_neg _ _ hd10 _ _ (Or.inr ⟨rfl, rfl⟩),
          cast_eq_of_neg n hneg]
        conv_rhs => rw [← hnat]
        push_cast
        ring
      · rw [if_neg hneg, List.nil_append,
          show (natLit (n.natAbs / 100000 / 10) ++
              ',' :: [digitChar (n.natAbs / 100000 % 10)]) ++ ' ' :: lit "млн" =
            natLit (n.natAbs / 100000 / 10) ++
              ',' :: digitChar (n.natAbs / 100000 % 10) :: ' ' :: lit "млн" by simp,
          parse_marked_frac_pos _ _ hd10 _ _ (Or.inr ⟨rfl, rfl⟩),
          cast_eq_of_nonneg n hneg]
        conv_rhs => rw [← hnat]
        push_cast
        ring

/-- Witness for C10 at one representative of each range. -/
theorem c10_parse_format_roundtrip_witness :
    parseNumericValue (NumericValue.str (formatCompactNumber ((500 : ℤ) : ℚ)))
      = ((500 : ℤ) : ℚ) ∧
    parseNumericValue (NumericValue.str (formatCompactNumber ((1500 : ℤ) : ℚ)))
      = ((1500 : ℤ) : ℚ) ∧
    parseNumericValue (NumericValue.str (formatCompactNumber ((-2500000 : ℤ) : ℚ)))
      = ((-2500000 : ℤ) : ℚ) :=
  ⟨(c10_parse_format_roundtrip 500).1 (by decide),
   (c10_parse_format_roundtrip 1500).2.1 (by decide) (by decide) ⟨15, by norm_num⟩,
   (c10_parse_format_roundtrip (-2500000)).2.2 (by decide) ⟨-25, by norm_num⟩⟩
